import Mathlib

/-!
Shallow embedding of the `zero` configuration manager (Go) for verification.

Sources embedded:
* `pkg/parser/parser.go` (custom-scanner version): lexer token classification,
  recursive-descent parser with error recovery;
* `pkg/parser/include_handler.go`: variable table, `ReplaceVariables`,
  `ProcessIncludes`, path resolution;
* the engine (`Engine.Plan`, `Engine.Apply`, `buildDependencyGraph`,
  `validateResources`, `topoSort`, `isPlatformSupported`) and
  `pkg/providers/provider.go` (`PlatformChecker.IsSupported`, registry).

Modelling conventions, used throughout:
* Go maps are association lists (`getA`/`setA`) iterated in insertion order;
  Go map iteration order is unspecified, so lemmas that depend on an order are
  proven for arbitrary order lists where it matters.
* Go strings are Lean `String`s; `strings.ReplaceAll` is re-implemented on
  `List Char` (`replaceAll`) with the same leftmost, non-overlapping,
  no-rescan semantics.
* Unbounded Go recursion/loops take an explicit fuel argument; fuel
  sufficiency is proven separately where a claim needs it.
* Side effects: provider calls are modelled as pure functions inside a
  `Provider` record; the file system is an association list from absolute
  path to file content; `filepath.Glob` is an explicit function parameter;
  `runtime.GOOS` is a `String` parameter. Calls performed (plan calls with
  their `current` argument, apply calls, file reads) are returned as logs.
* Line/column bookkeeping of tokens and the 1024-byte read buffering of the
  scanner are elided (inputs are single-chunk); token literals and kinds are
  modelled exactly.
-/

namespace Zero

/-- Lookup in an association list (Go `m[k]` with `ok` flag). -/
def getA {α : Type} : List (String × α) → String → Option α
  | [], _ => none
  | (k, v) :: rest, key => if k = key then some v else getA rest key

/-- Insert-or-overwrite in an association list (Go `m[k] = v`). -/
def setA {α : Type} : List (String × α) → String → α → List (String × α)
  | [], key, val => [(key, val)]
  | (k, v) :: rest, key, val =>
    if k = key then (k, val) :: rest else (k, v) :: setA rest key val

/-- Go `strings.ReplaceAll` on character lists: scan left to right, replace
each non-overlapping occurrence of `pat`, never rescanning the replacement.
(The `pat = []` guard: all call sites in the source use a nonempty pattern.)
Structural recursion on fuel; every step consumes at least one character, so
fuel `s.length` suffices and the out-of-fuel case is never reached then. -/
def replaceAllF (pat rep : List Char) : Nat → List Char → List Char
  | _, [] => []
  | 0, s => s
  | n + 1, c :: rest =>
    if pat ≠ [] ∧ pat.isPrefixOf (c :: rest) then
      rep ++ replaceAllF pat rep n ((c :: rest).drop pat.length)
    else
      c :: replaceAllF pat rep n rest

/-- Go `strings.ReplaceAll` on character lists, with sufficient fuel. -/
def replaceAll (pat rep s : List Char) : List Char :=
  replaceAllF pat rep s.length s

/-- Whether `pat` occurs as a contiguous substring (Go `strings.Contains`). -/
def occursIn (pat : List Char) : List Char → Bool
  | [] => pat.isEmpty
  | c :: rest => pat.isPrefixOf (c :: rest) || occursIn pat rest

/-- Go `strings.ReplaceAll` lifted to `String`. -/
def goReplaceAll (s pat rep : String) : String :=
  String.mk (replaceAll pat.data rep.data s.data)

/-- `IncludeHandler.ReplaceVariables` (include_handler.go:52-58): for each
variable `name → value` (in the given iteration order), replace every
occurrence of `"$" ++ name` by `value`. -/
def ReplaceVariables (vars : List (String × String)) (content : String) : String :=
  vars.foldl (fun acc kv => goReplaceAll acc ("$" ++ kv.1) kv.2) content

/-! ## Lexer (parser.go, custom-scanner version, lines 9-311) -/

/-- Token kinds (parser.go:12-32). -/
inductive TokenType
  | ILLEGAL | EOF | IDENT | STRING | NUMBER
  | LBRACE | RBRACE | LPAREN | RPAREN | LBRACKET | RBRACKET
  | ASSIGN | COMMA | WHEN | DEPENDS_ON | INCLUDE | INCLUDE_PLATFORM
  | VARIABLE | TEMPLATE
deriving DecidableEq, Repr

/-- A lexical token; line/column diagnostics are elided (parser.go:35-40). -/
structure Token where
  ttype : TokenType
  literal : String
deriving DecidableEq, Repr

/-- Go `isLetter` (parser.go:270-272). -/
def isLetter (ch : Char) : Bool :=
  ('a' ≤ ch && ch ≤ 'z') || ('A' ≤ ch && ch ≤ 'Z')

/-- Go `isDigit` (parser.go:275-277). -/
def isDigit (ch : Char) : Bool :=
  '0' ≤ ch && ch ≤ '9'

/-- Characters skipped by `skipWhitespace` (parser.go:111-115). -/
def isSpaceGo (ch : Char) : Bool :=
  ch == ' ' || ch == '\t' || ch == '\n' || ch == '\r'

/-- Identifier continuation characters (parser.go:142-148). -/
def isIdentChar (ch : Char) : Bool :=
  isLetter ch || isDigit ch || ch == '_'

/-- Number characters (parser.go:151-157). -/
def isNumChar (ch : Char) : Bool :=
  isDigit ch || ch == '.'

/-- Consume a line comment up to and including the newline (parser.go:118-139,
one branch). -/
def skipLineComment (s : List Char) : List Char :=
  (s.dropWhile (fun c => c != '\n')).drop 1

/-- The whitespace/comment skipping loop at the top of `scanToken`
(parser.go:182-186): skip whitespace, then repeatedly skip `//`- and
`#`-comments followed by whitespace. Fuel bounds the loop. -/
def skipWsComments : Nat → List Char → List Char
  | 0, s => s
  | n + 1, s =>
    let s1 := s.dropWhile isSpaceGo
    match s1 with
    | '/' :: '/' :: _ => skipWsComments n (skipLineComment s1)
    | '#' :: _ => skipWsComments n (skipLineComment s1)
    | _ => s1

/-- Go `unicode.ToLower` restricted to ASCII; identifiers consist of ASCII
letters, digits and underscores, on which this agrees with Go. -/
def charToLowerGo (c : Char) : Char :=
  if 'A' ≤ c ∧ c ≤ 'Z' then Char.ofNat (c.toNat + 32) else c

/-- Go `strings.ToLower` (ASCII; see `charToLowerGo`). -/
def toLowerGo (s : String) : String :=
  String.mk (s.data.map charToLowerGo)

/-- Keyword recognition inside `scanToken` (parser.go:235-254):
`include_platform` is compared literally before the case-insensitive
keyword switch, which has no `include_platform` case of its own. -/
def identTokenType (lit : String) : TokenType :=
  if lit = "include_platform" then TokenType.INCLUDE_PLATFORM
  else
    match toLowerGo lit with
    | "when" => TokenType.WHEN
    | "depends_on" => TokenType.DEPENDS_ON
    | "include" => TokenType.INCLUDE
    | "variable" => TokenType.VARIABLE
    | "template" => TokenType.TEMPLATE
    | _ => TokenType.IDENT

/-- `customScanner.scanToken` (parser.go:181-267) on the remaining input;
returns the token and the rest of the input. -/
def scanToken (s : List Char) : Token × List Char :=
  let s1 := skipWsComments (s.length + 1) s
  match s1 with
  | [] => (⟨TokenType.EOF, ""⟩, [])
  | '{' :: rest => (⟨TokenType.LBRACE, "\x7b"⟩, rest)
  | '}' :: rest => (⟨TokenType.RBRACE, "\x7d"⟩, rest)
  | '(' :: rest => (⟨TokenType.LPAREN, "("⟩, rest)
  | ')' :: rest => (⟨TokenType.RPAREN, ")"⟩, rest)
  | '[' :: rest => (⟨TokenType.LBRACKET, "["⟩, rest)
  | ']' :: rest => (⟨TokenType.RBRACKET, "]"⟩, rest)
  | '=' :: rest => (⟨TokenType.ASSIGN, "="⟩, rest)
  | ',' :: rest => (⟨TokenType.COMMA, ","⟩, rest)
  | '"' :: rest =>
    let lit := rest.takeWhile (fun c => c != '"')
    (⟨TokenType.STRING, String.mk lit⟩, (rest.dropWhile (fun c => c != '"')).drop 1)
  | c :: rest =>
    if isLetter c then
      let lit := String.mk (s1.takeWhile isIdentChar)
      (⟨identTokenType lit, lit⟩, s1.dropWhile isIdentChar)
    else if isDigit c then
      (⟨TokenType.NUMBER, String.mk (s1.takeWhile isNumChar)⟩, s1.dropWhile isNumChar)
    else
      (⟨TokenType.ILLEGAL, String.mk [c]⟩, rest)

/-- Run the scanner to the EOF token (the lexer consumes tokens lazily; the
parser only ever reads forward, so the token list is an equivalent view).
Fuel bounds the loop; `input.length + 1` always suffices in practice. -/
def tokenize : Nat → List Char → List Token
  | 0, _ => []
  | n + 1, s =>
    let (tok, rest) := scanToken s
    if tok.ttype = TokenType.EOF then [] else tok :: tokenize n rest

/-! ## Parser (parser.go:313-846, custom-scanner version) -/

/-- Attribute values (`interface\x7b\x7d` in Go). A NUMBER token is stored as
its literal text in a plain string, exactly as the source does, so `str`
covers both STRING and NUMBER attributes; `strList` is `[]string`;
`strMap` is `map[string]string`. -/
inductive Value
  | str (s : String)
  | strList (xs : List String)
  | strMap (m : List (String × String))
deriving DecidableEq, Repr

/-- A parsed resource (parser.go:314-320; the engine re-declares the same
shape, so one Lean structure serves both packages). -/
structure Resource where
  rtype : String
  name : String
  attributes : List (String × Value)
  dependsOn : List String
  conditions : List (String × List String)
deriving DecidableEq, Repr

/-- The current token (`p.lexer.Current()`); past the end the scanner keeps
returning EOF tokens. -/
def curTok (ts : List Token) : Token :=
  ts.headD ⟨TokenType.EOF, ""⟩

/-- Loop body of `parseStringArray` (parser.go:724-737). -/
def parseStringArrayLoop : Nat → List String → List Token →
    Except String (List String) × List Token
  | 0, _, ts => (Except.error "out of parser fuel", ts)
  | n + 1, acc, ts =>
    let t := curTok ts
    if t.ttype = TokenType.RBRACKET ∨ t.ttype = TokenType.EOF then (Except.ok acc, ts)
    else if t.ttype ≠ TokenType.STRING then
      (Except.error ("expected string in array, got " ++ t.literal), ts)
    else
      let ts1 := ts.tail
      let acc1 := acc ++ [t.literal]
      if (curTok ts1).ttype = TokenType.COMMA then parseStringArrayLoop n acc1 ts1.tail
      else if (curTok ts1).ttype ≠ TokenType.RBRACKET then
        (Except.error ("expected , or ], got " ++ (curTok ts1).literal), ts1)
      else parseStringArrayLoop n acc1 ts1

/-- `parseStringArray` (parser.go:716-745). -/
def parseStringArray (fuel : Nat) (ts : List Token) :
    Except String (List String) × List Token :=
  if (curTok ts).ttype ≠ TokenType.LBRACKET then
    (Except.error ("expected [, got " ++ (curTok ts).literal), ts)
  else
    match parseStringArrayLoop fuel [] ts.tail with
    | (Except.error e, rest) => (Except.error e, rest)
    | (Except.ok acc, rest) =>
      if (curTok rest).ttype ≠ TokenType.RBRACKET then
        (Except.error ("expected ], got " ++ (curTok rest).literal), rest)
      else (Except.ok acc, rest.tail)

/-- Loop body of `parseBlockMap` (parser.go:756-781). -/
def parseBlockMapLoop : Nat → List (String × String) → List Token →
    Except String (List (String × String)) × List Token
  | 0, _, ts => (Except.error "out of parser fuel", ts)
  | n + 1, acc, ts =>
    let t := curTok ts
    if t.ttype = TokenType.RBRACE ∨ t.ttype = TokenType.EOF then (Except.ok acc, ts)
    else if t.ttype ≠ TokenType.IDENT then
      (Except.error ("expected identifier in block map, got " ++ t.literal), ts)
    else
      let key := t.literal
      let ts1 := ts.tail
      if (curTok ts1).ttype ≠ TokenType.ASSIGN then
        (Except.error ("expected = after key in block map, got " ++ (curTok ts1).literal), ts1)
      else
        let ts2 := ts1.tail
        if (curTok ts2).ttype ≠ TokenType.STRING then
          (Except.error ("expected string value in block map, got " ++ (curTok ts2).literal), ts2)
        else
          let acc1 := setA acc key (curTok ts2).literal
          let ts3 := ts2.tail
          if (curTok ts3).ttype = TokenType.COMMA then parseBlockMapLoop n acc1 ts3.tail
          else if (curTok ts3).ttype ≠ TokenType.RBRACE then
            (Except.error ("expected , or \x7d, got " ++ (curTok ts3).literal), ts3)
          else parseBlockMapLoop n acc1 ts3

/-- `parseBlockMap` (parser.go:748-789). -/
def parseBlockMap (fuel : Nat) (ts : List Token) :
    Except String (List (String × String)) × List Token :=
  if (curTok ts).ttype ≠ TokenType.LBRACE then
    (Except.error ("expected \x7b, got " ++ (curTok ts).literal), ts)
  else
    match parseBlockMapLoop fuel [] ts.tail with
    | (Except.error e, rest) => (Except.error e, rest)
    | (Except.ok acc, rest) =>
      if (curTok rest).ttype ≠ TokenType.RBRACE then
        (Except.error ("expected \x7d, got " ++ (curTok rest).literal), rest)
      else (Except.ok acc, rest.tail)

/-- Loop body of `parseConditionBlock` (parser.go:800-819). -/
def parseConditionBlockLoop : Nat → List (String × List String) → List Token →
    Except String (List (String × List String)) × List Token
  | 0, _, ts => (Except.error "out of parser fuel", ts)
  | n + 1, acc, ts =>
    let t := curTok ts
    if t.ttype = TokenType.RBRACE ∨ t.ttype = TokenType.EOF then (Except.ok acc, ts)
    else if t.ttype ≠ TokenType.IDENT then
      (Except.error ("expected condition name, got " ++ t.literal), ts)
    else
      let condName := t.literal
      let ts1 := ts.tail
      if (curTok ts1).ttype ≠ TokenType.ASSIGN then
        (Except.error ("expected = after condition name, got " ++ (curTok ts1).literal), ts1)
      else
        match parseStringArray n ts1.tail with
        | (Except.error e, rest) => (Except.error e, rest)
        | (Except.ok values, rest) => parseConditionBlockLoop n (setA acc condName values) rest

/-- `parseConditionBlock` (parser.go:792-827). -/
def parseConditionBlock (fuel : Nat) (ts : List Token) :
    Except String (List (String × List String)) × List Token :=
  if (curTok ts).ttype ≠ TokenType.LBRACE then
    (Except.error ("expected \x7b, got " ++ (curTok ts).literal), ts)
  else
    match parseConditionBlockLoop fuel [] ts.tail with
    | (Except.error e, rest) => (Except.error e, rest)
    | (Except.ok acc, rest) =>
      if (curTok rest).ttype ≠ TokenType.RBRACE then
        (Except.error ("expected \x7d, got " ++ (curTok rest).literal), rest)
      else (Except.ok acc, rest.tail)

/-- Loop body of `parseDependsOn` (parser.go:665-704). -/
def parseDependsOnLoop : Nat → List String → List Token →
    Except String (List String) × List Token
  | 0, _, ts => (Except.error "out of parser fuel", ts)
  | n + 1, acc, ts =>
    let t := curTok ts
    if t.ttype = TokenType.RBRACKET ∨ t.ttype = TokenType.EOF then (Except.ok acc, ts)
    else if t.ttype ≠ TokenType.IDENT then
      (Except.error ("expected resource type, got " ++ t.literal), ts)
    else
      let resType := t.literal
      let ts1 := ts.tail
      if (curTok ts1).ttype ≠ TokenType.LBRACE then
        (Except.error ("expected \x7b after resource type, got " ++ (curTok ts1).literal), ts1)
      else
        let ts2 := ts1.tail
        if (curTok ts2).ttype ≠ TokenType.STRING then
          (Except.error ("expected resource name string, got " ++ (curTok ts2).literal), ts2)
        else
          let resName := (curTok ts2).literal
          let ts3 := ts2.tail
          if (curTok ts3).ttype ≠ TokenType.RBRACE then
            (Except.error ("expected \x7d after resource name, got " ++ (curTok ts3).literal), ts3)
          else
            let acc1 := acc ++ [resType ++ "." ++ resName]
            let ts4 := ts3.tail
            if (curTok ts4).ttype = TokenType.COMMA then parseDependsOnLoop n acc1 ts4.tail
            else if (curTok ts4).ttype ≠ TokenType.RBRACKET then
              (Except.error ("expected , or ], got " ++ (curTok ts4).literal), ts4)
            else parseDependsOnLoop n acc1 ts4

/-- `parseDependsOn` (parser.go:655-713). -/
def parseDependsOn (fuel : Nat) (ts : List Token) :
    Except String (List String) × List Token :=
  if (curTok ts).ttype ≠ TokenType.LBRACKET then
    (Except.error ("expected [ after depends_on, got " ++ (curTok ts).literal), ts)
  else
    match parseDependsOnLoop fuel [] ts.tail with
    | (Except.error e, rest) => (Except.error e, rest)
    | (Except.ok acc, rest) =>
      if (curTok rest).ttype ≠ TokenType.RBRACKET then
        (Except.error ("expected ], got " ++ (curTok rest).literal), rest)
      else (Except.ok acc, rest.tail)

/-- The attribute loop of `parseResourceBlock` (parser.go:577-643). -/
def parseAttrsLoop : Nat → Resource → List Token → Except String Resource × List Token
  | 0, _, ts => (Except.error "out of parser fuel", ts)
  | n + 1, r, ts =>
    let t := curTok ts
    if t.ttype = TokenType.RBRACE ∨ t.ttype = TokenType.EOF then (Except.ok r, ts)
    else
      let attrName := t.literal
      if t.ttype = TokenType.DEPENDS_ON then
        match parseDependsOn n ts.tail with
        | (Except.error e, rest) => (Except.error e, rest)
        | (Except.ok deps, rest) => parseAttrsLoop n { r with dependsOn := deps } rest
      else if t.ttype = TokenType.WHEN then
        let ts1 := ts.tail
        if (curTok ts1).ttype ≠ TokenType.ASSIGN then
          (Except.error ("expected = after when, got " ++ (curTok ts1).literal), ts1)
        else
          match parseConditionBlock n ts1.tail with
          | (Except.error e, rest) => (Except.error e, rest)
          | (Except.ok conds, rest) => parseAttrsLoop n { r with conditions := conds } rest
      else if t.ttype = TokenType.IDENT then
        let ts1 := ts.tail
        if (curTok ts1).ttype ≠ TokenType.ASSIGN then
          (Except.error ("expected = after attribute name, got " ++ (curTok ts1).literal), ts1)
        else
          let ts2 := ts1.tail
          let v := curTok ts2
          if v.ttype = TokenType.STRING then
            parseAttrsLoop n { r with attributes := setA r.attributes attrName (Value.str v.literal) } ts2.tail
          else if v.ttype = TokenType.NUMBER then
            parseAttrsLoop n { r with attributes := setA r.attributes attrName (Value.str v.literal) } ts2.tail
          else if v.ttype = TokenType.LBRACKET then
            match parseStringArray n ts2 with
            | (Except.error e, rest) => (Except.error e, rest)
            | (Except.ok xs, rest) =>
              parseAttrsLoop n { r with attributes := setA r.attributes attrName (Value.strList xs) } rest
          else if v.ttype = TokenType.LBRACE then
            match parseBlockMap n ts2 with
            | (Except.error e, rest) => (Except.error e, rest)
            | (Except.ok m, rest) =>
              parseAttrsLoop n { r with attributes := setA r.attributes attrName (Value.strMap m) } rest
          else
            (Except.error ("unexpected value type for attribute " ++ attrName ++ ": " ++ v.literal), ts2)
      else
        (Except.error ("unexpected token in resource block: " ++ t.literal), ts)

/-- `parseResourceBlock` (parser.go:534-652), including the default
attributes for `file`, `include`, `variable` and `template` blocks. -/
def parseResourceBlock (fuel : Nat) (resourceType : String) (ts : List Token) :
    Except String Resource × List Token :=
  let t := curTok ts
  if t.ttype ≠ TokenType.STRING then
    (Except.error ("expected resource name string, got " ++ t.literal), ts)
  else
    let name := t.literal
    let attrs0 : List (String × Value) := []
    let attrs1 := if resourceType = "file" then setA attrs0 "path" (Value.str name) else attrs0
    let attrs2 := if resourceType = "include" then setA attrs1 "path" (Value.str name) else attrs1
    let attrs3 := if resourceType = "variable" then setA attrs2 "name" (Value.str name) else attrs2
    let attrs4 := if resourceType = "template" then setA attrs3 "name" (Value.str name) else attrs3
    let r0 : Resource :=
      { rtype := resourceType, name := name, attributes := attrs4, dependsOn := [], conditions := [] }
    let ts1 := ts.tail
    if (curTok ts1).ttype ≠ TokenType.LBRACE then
      (Except.error ("expected \x7b, got " ++ (curTok ts1).literal), ts1)
    else
      match parseAttrsLoop fuel r0 ts1.tail with
      | (Except.error e, rest) => (Except.error e, rest)
      | (Except.ok r, rest) =>
        if (curTok rest).ttype ≠ TokenType.RBRACE then
          (Except.error ("expected \x7d, got " ++ (curTok rest).literal), rest)
        else (Except.ok r, rest.tail)

/-- `parseIncludePlatformBlock` (parser.go:482-531): loop over
`platform = "path"` entries. -/
def parseIncludePlatformLoop : Nat → List (String × Value) → List Token →
    Except String (List (String × Value)) × List Token
  | 0, _, ts => (Except.error "out of parser fuel", ts)
  | n + 1, attrs, ts =>
    let t := curTok ts
    if t.ttype = TokenType.RBRACE ∨ t.ttype = TokenType.EOF then (Except.ok attrs, ts)
    else if t.ttype ≠ TokenType.IDENT then
      (Except.error ("expected platform identifier (linux, darwin, windows), got " ++ t.literal), ts)
    else
      let platform := t.literal
      let ts1 := ts.tail
      if (curTok ts1).ttype ≠ TokenType.ASSIGN then
        (Except.error ("expected = after platform name, got " ++ (curTok ts1).literal), ts1)
      else
        let ts2 := ts1.tail
        if (curTok ts2).ttype ≠ TokenType.STRING then
          (Except.error ("expected string path for platform " ++ platform ++ ", got " ++ (curTok ts2).literal), ts2)
        else
          parseIncludePlatformLoop n (setA attrs platform (Value.str (curTok ts2).literal)) ts2.tail

/-- `parseIncludePlatformBlock` (parser.go:482-531). -/
def parseIncludePlatformBlock (fuel : Nat) (ts : List Token) :
    Except String Resource × List Token :=
  let ts1 := ts.tail
  if (curTok ts1).ttype ≠ TokenType.LBRACE then
    (Except.error ("expected \x7b after include_platform, got " ++ (curTok ts1).literal), ts1)
  else
    match parseIncludePlatformLoop fuel [] ts1.tail with
    | (Except.error e, rest) => (Except.error e, rest)
    | (Except.ok attrs, rest) =>
      if (curTok rest).ttype ≠ TokenType.RBRACE then
        (Except.error ("expected \x7d to close include_platform block, got " ++ (curTok rest).literal), rest)
      else
        (Except.ok { rtype := "include_platform", name := "platform", attributes := attrs,
                     dependsOn := [], conditions := [] }, rest.tail)

/-- `skipToNextResource` (parser.go:830-846): consume tokens tracking brace
depth until a closing brace at depth ≤ 0 or EOF. -/
def skipToNextResource : Nat → Int → List Token → List Token
  | 0, _, ts => ts
  | n + 1, depth, ts =>
    let t := curTok ts
    if t.ttype = TokenType.EOF then ts
    else if t.ttype = TokenType.LBRACE then skipToNextResource n (depth + 1) ts.tail
    else if t.ttype = TokenType.RBRACE then
      if depth - 1 ≤ 0 then ts.tail else skipToNextResource n (depth - 1) ts.tail
    else skipToNextResource n depth ts.tail

/-- The inline include_platform entry loop of `Parse` (parser.go:400-429):
parse errors are recorded and resynchronized past, then the loop continues. -/
def parseInlinePlatformLoop : Nat → List (String × Value) → List String → List Token →
    List (String × Value) × List String × List Token
  | 0, attrs, errs, ts => (attrs, errs, ts)
  | n + 1, attrs, errs, ts =>
    let t := curTok ts
    if t.ttype = TokenType.RBRACE ∨ t.ttype = TokenType.EOF then (attrs, errs, ts)
    else if t.ttype ≠ TokenType.IDENT then
      parseInlinePlatformLoop n attrs
        (errs ++ ["Expected platform identifier in include_platform block, got " ++ t.literal])
        (skipToNextResource n 0 ts)
    else
      let platform := t.literal
      let ts1 := ts.tail
      if (curTok ts1).ttype ≠ TokenType.ASSIGN then
        parseInlinePlatformLoop n attrs
          (errs ++ ["Expected = after platform name, got " ++ (curTok ts1).literal])
          (skipToNextResource n 0 ts1)
      else
        let ts2 := ts1.tail
        if (curTok ts2).ttype ≠ TokenType.STRING then
          parseInlinePlatformLoop n attrs
            (errs ++ ["Expected string path for platform " ++ platform ++ ", got " ++ (curTok ts2).literal])
            (skipToNextResource n 0 ts2)
        else
          parseInlinePlatformLoop n (setA attrs platform (Value.str (curTok ts2).literal)) errs ts2.tail

/-- The Go resource-type tag selected at the top of the `Parse` loop
(parser.go:363-375). -/
def resourceTypeOf (t : Token) : String :=
  match t.ttype with
  | TokenType.INCLUDE => "include"
  | TokenType.INCLUDE_PLATFORM => "include_platform"
  | TokenType.VARIABLE => "variable"
  | TokenType.TEMPLATE => "template"
  | _ => t.literal

/-- The outcome of one top-level `Parse` iteration after the `include`
lookahead dance (parser.go:446-466): dispatch to
`parseIncludePlatformBlock` or `parseResourceBlock`, recording the error
and resynchronizing on failure. Returns the token position to resume at,
the resources to append and the errors to record. -/
def parseTopStep (n : Nat) (ts : List Token) (resourceType : String) :
    List Token × List Resource × List String :=
  if (curTok ts).ttype = TokenType.INCLUDE_PLATFORM then
    match parseIncludePlatformBlock n ts with
    | (Except.error e, rest) =>
      (skipToNextResource n 0 rest, [], ["Error parsing include_platform: " ++ e])
    | (Except.ok r, rest) => (rest, [r], [])
  else
    match parseResourceBlock n resourceType ts.tail with
    | (Except.error e, rest) =>
      (skipToNextResource n 0 rest, [], ["Error parsing resource: " ++ e])
    | (Except.ok r, rest) => (rest, [r], [])

/-- The top-level `Parse` loop (parser.go:351-471), including the `include`
lookahead dance at lines 382-443. Accumulates resources and error messages
(line/column prefixes elided). -/
def parseLoop : Nat → List Token → List Resource → List String →
    List Resource × List String
  | 0, _, rs, errs => (rs, errs)
  | n + 1, ts, rs, errs =>
    let t := curTok ts
    if t.ttype = TokenType.EOF then (rs, errs)
    else if t.ttype = TokenType.IDENT ∨ t.ttype = TokenType.INCLUDE ∨
        t.ttype = TokenType.INCLUDE_PLATFORM ∨ t.ttype = TokenType.VARIABLE ∨
        t.ttype = TokenType.TEMPLATE then
      let resourceType := resourceTypeOf t
      if t.ttype = TokenType.INCLUDE ∧ (curTok ts.tail).ttype = TokenType.LBRACE then
        let (attrs, errs1, ts2) := parseInlinePlatformLoop n [] errs ts.tail.tail
        let ts3 := if (curTok ts2).ttype = TokenType.RBRACE then ts2.tail else ts2
        parseLoop n ts3
          (rs ++ [{ rtype := "include_platform", name := "platform", attributes := attrs,
                    dependsOn := [], conditions := [] }]) errs1
      else
        let tsX := if t.ttype = TokenType.INCLUDE then ts.tail.tail else ts
        let (rest, newRs, newErrs) := parseTopStep n tsX resourceType
        parseLoop n rest (rs ++ newRs) (errs ++ newErrs)
    else
      parseLoop n ts.tail rs
        (errs ++ ["Expected resource type identifier, include, or variable statement, got " ++ t.literal])

/-- `Parser.Parse` on a whole input string: tokenize, then run the top-level
loop. Returns the resources and the recorded error messages; the Go version
additionally returns a composite error exactly when the message list is
nonempty. -/
def Parse (input : String) : List Resource × List String :=
  let toks := tokenize (input.data.length + 1) input.data
  parseLoop (toks.length + 1) toks [] []

/-! ## Include handler (include_handler.go) -/

/-- `IncludeHandler` (include_handler.go:12-17): base path, processed-file
set, variable table and template table. The two tables are association
lists; `processedFiles` is the key set of Go `map[string]bool`. -/
structure IncludeHandler where
  basePath : String
  processedFiles : List String
  vars : List (String × String)
  templates : List (String × String)
deriving DecidableEq, Repr

/-- `NewIncludeHandler` (include_handler.go:20-27). -/
def NewIncludeHandler (basePath : String) : IncludeHandler :=
  { basePath := basePath, processedFiles := [], vars := [], templates := [] }

/-- Slash-path `filepath.IsAbs` (path cleaning elided; the development only
uses clean slash paths). -/
def isAbsPath (p : String) : Bool :=
  match p.data with
  | [] => false
  | c :: _ => c = '/'

/-- Slash-path `filepath.Dir`: everything before the final slash. -/
def dirOf (p : String) : String :=
  match p.data.reverse.dropWhile (fun c => c != '/') with
  | [] => "."
  | _ :: rest => String.mk rest.reverse

/-- Slash-path `filepath.Join` of a directory and a relative path. -/
def joinPath (a b : String) : String :=
  a ++ "/" ++ b

/-- `resolveIncludePath` (include_handler.go:195-202). -/
def resolveIncludePath (baseFile includePath : String) : String :=
  if isAbsPath includePath then includePath
  else joinPath (dirOf baseFile) includePath

/-- `filepath.Abs`: the development feeds canonical absolute paths, for which
`Abs` is the identity. -/
def absPath (p : String) : String := p

/-- Errors of `ProcessIncludes`; `fuel` marks exhaustion of the recursion
bound and never occurs with sufficient fuel (proven below). -/
inductive ProcErr
  | fuel
  | readErr (path : String)
  | parseErr (path : String)
deriving DecidableEq, Repr

/-- The string attribute read by the `variable`/`template`/`include`
classification arms (`resource.Attributes[k].(string)` with `ok` flag). -/
def strAttr (r : Resource) (k : String) : Option String :=
  match getA r.attributes k with
  | some (Value.str s) => some s
  | _ => none

/-- The platform pattern chosen by the `include_platform` arm
(include_handler.go:122-138): the attribute whose key is the current GOOS,
or `""` when the GOOS is not linux/darwin/windows or the key is absent. -/
def platformPatternFor (os : String) (r : Resource) : String :=
  if os = "linux" then (strAttr r "linux").getD ""
  else if os = "darwin" then (strAttr r "darwin").getD ""
  else if os = "windows" then (strAttr r "windows").getD ""
  else ""

/-- Variable substitution applied to every string attribute of a regular
resource (include_handler.go:178-185); keys and non-string values are
untouched, and the resource name is not rewritten. -/
def substResource (vars : List (String × String)) (r : Resource) : Resource :=
  { r with attributes := r.attributes.map (fun kv =>
      match kv.2 with
      | Value.str s => (kv.1, Value.str (ReplaceVariables vars s))
      | v => (kv.1, v)) }

/-- Accumulator of `ProcessIncludes`: the accumulated resources (or the
first fatal error, which sticks, matching the early `return nil, err` in
Go), the handler state, and the log of `ReadFile` paths. -/
abbrev ProcAcc := Except ProcErr (List Resource) × IncludeHandler × List String

/-- The recursion over glob matches inside the `include`/`include_platform`
arms (include_handler.go:111-117 and 151-157); `self` is the recursive
`ProcessIncludes` call at the next depth. -/
def processMatchesF (self : IncludeHandler → String → ProcAcc)
    (ms : List String) (acc : ProcAcc) : ProcAcc :=
  ms.foldl (fun acc2 m =>
    match acc2 with
    | (Except.error e, h2, reads2) => (Except.error e, h2, reads2)
    | (Except.ok racc, h2, reads2) =>
      match self h2 m with
      | (Except.error e, h3, reads3) => (Except.error e, h3, reads2 ++ reads3)
      | (Except.ok rs2, h3, reads3) => (Except.ok (racc ++ rs2), h3, reads2 ++ reads3)) acc

/-- The per-resource classification step of `ProcessIncludes`
(include_handler.go:95-189): `include`/`include_platform` recurse through
`self`, `variable`/`template` update the tables, anything else is emitted
with variable substitution over its string attributes. -/
def processResourceStep (os : String) (glob : String → List String)
    (self : IncludeHandler → String → ProcAcc) (configFile : String)
    (acc : ProcAcc) (r : Resource) : ProcAcc :=
  match acc with
  | (Except.error e, hh, reads) => (Except.error e, hh, reads)
  | (Except.ok resAcc, hh, reads) =>
    if r.rtype = "include" then
      match strAttr r "path" with
      | some pattern =>
        processMatchesF self (glob (resolveIncludePath configFile pattern))
          (Except.ok resAcc, hh, reads)
      | none => (Except.ok resAcc, hh, reads)
    else if r.rtype = "include_platform" then
      let platformPath := platformPatternFor os r
      if platformPath ≠ "" then
        processMatchesF self (glob (resolveIncludePath configFile platformPath))
          (Except.ok resAcc, hh, reads)
      else (Except.ok resAcc, hh, reads)
    else if r.rtype = "variable" then
      let hh1 :=
        match strAttr r "value" with
        | some value =>
          { hh with vars := setA hh.vars r.name (ReplaceVariables hh.vars value) }
        | none => hh
      (Except.ok resAcc, hh1, reads)
    else if r.rtype = "template" then
      let hh1 :=
        match strAttr r "content" with
        | some content => { hh with templates := setA hh.templates r.name content }
        | none => hh
      (Except.ok resAcc, hh1, reads)
    else
      (Except.ok (resAcc ++ [substResource hh.vars r]), hh, reads)

/-- `IncludeHandler.ProcessIncludes` (include_handler.go:61-192).
Parameters: `os` is `runtime.GOOS`; `glob` is `filepath.Glob` (never failing,
as for literal patterns); `fs` maps absolute file paths to contents.
Returns the resources (or the first fatal error), the final handler state,
and the log of `ReadFile`-call paths, in order. Fuel bounds the recursion
depth; `|fs| + 1` always suffices (proven below). -/
def ProcessIncludes (os : String) (glob : String → List String)
    (fs : List (String × String)) : Nat → IncludeHandler → String → ProcAcc
  | 0, h, _ => (Except.error ProcErr.fuel, h, [])
  | n + 1, h, configFile =>
    let abs := absPath configFile
    if abs ∈ h.processedFiles then (Except.ok [], h, [])
    else
      let h1 := { h with processedFiles := abs :: h.processedFiles }
      match getA fs configFile with
      | none => (Except.error (ProcErr.readErr configFile), h1, [configFile])
      | some data =>
        let (fileResources, perrs) := Parse data
        if perrs ≠ [] then (Except.error (ProcErr.parseErr configFile), h1, [configFile])
        else
          fileResources.foldl
            (processResourceStep os glob (ProcessIncludes os glob fs n) configFile)
            (Except.ok [], h1, [configFile])

/-! ## Providers (provider.go) and engine (engine.go) -/

/-- `providers.ResourceState` (provider.go:13-19). -/
structure ResourceState where
  rtype : String
  name : String
  attributes : List (String × Value)
  status : String
  error : Option String
deriving DecidableEq, Repr

/-- `engine.PlanAction` (engine.go:32-35). -/
structure PlanAction where
  action : String
  details : String
deriving DecidableEq, Repr

/-- The `ResourceProvider` interface (provider.go:22-31), modelled as a
record of pure functions (the `context.Context` argument and the live
system are abstracted into the functions themselves). -/
structure Provider where
  validate : List (String × Value) → Except String Unit
  plan : List (String × Value) → List (String × Value) → Except String ResourceState
  apply : ResourceState → Except String ResourceState

/-- `ProviderRegistry` (provider.go:34-57): mapping from resource type to
provider; `Get` errors on unknown types. -/
def registryGet (reg : List (String × Provider)) (resourceType : String) :
    Except String Provider :=
  match getA reg resourceType with
  | some p => Except.ok p
  | none => Except.error ("no provider registered for resource type " ++ resourceType)

/-- `PlatformChecker.IsSupported` (provider.go:63-80): the loop returns true
on the first entry that matches the current OS; `linux`/`darwin`/`windows`
match by equality, `unix` matches linux and darwin, anything else never
matches. -/
def IsSupported (currentOS : String) (platforms : List String) : Bool :=
  platforms.any fun platform =>
    if platform = "linux" ∨ platform = "darwin" ∨ platform = "windows" then
      currentOS == platform
    else if platform = "unix" then
      currentOS == "linux" || currentOS == "darwin"
    else false

/-- `Engine.isPlatformSupported` (engine.go:320-328). -/
def isPlatformSupported (os : String) (r : Resource) : Bool :=
  match getA r.conditions "platform" with
  | none => true
  | some platforms => IsSupported os platforms

/-- The graph key `"type.name"` (engine.go:215 and elsewhere). -/
def resId (r : Resource) : String :=
  r.rtype ++ "." ++ r.name

/-- Engine errors. Each constructor records the resource names interpolated
into the corresponding Go error message; `fuel` marks exhaustion of the
DFS fuel and never occurs on well-formed graphs (proven below). -/
inductive EngErr
  | missingDep (id dep : String)
  | noProvider (id : String) (msg : String)
  | validationFailed (id : String) (msg : String)
  | cycleDetected (id : String)
  | fuel
deriving DecidableEq, Repr

/-- The dependency graph: one node per `"type.name"` key, each holding its
resource. Go stores resolved edge pointer lists in the nodes; here the
out-edges are read off the stored resource. -/
abbrev Graph := List (String × Resource)

/-- The out-edges (`node.DependsOn`) of a node. -/
def deps (g : Graph) (id : String) : List String :=
  match getA g id with
  | some r => r.dependsOn
  | none => []

/-- The second pass of `buildDependencyGraph` (engine.go:223-237) for one
resource: every `depends_on` target must be a node of the graph. -/
def checkDeps (g : Graph) (id : String) : List String → Except EngErr Unit
  | [] => Except.ok ()
  | d :: ds =>
    match getA g d with
    | some _ => checkDeps g id ds
    | none => Except.error (EngErr.missingDep id d)

/-- The second pass of `buildDependencyGraph` over all resources. -/
def checkAllDeps (g : Graph) : List Resource → Except EngErr Unit
  | [] => Except.ok ()
  | r :: rest =>
    match checkDeps g (resId r) r.dependsOn with
    | Except.error e => Except.error e
    | Except.ok _ => checkAllDeps g rest

/-- `Engine.buildDependencyGraph` (engine.go:210-240): first pass keys one
node per `"type.name"` (later resources overwrite earlier ones), second
pass requires every dependency target to exist. -/
def buildDependencyGraph (resources : List Resource) : Except EngErr Graph :=
  match checkAllDeps (resources.foldl (fun g r => setA g (resId r) r) []) resources with
  | Except.error e => Except.error e
  | Except.ok _ => Except.ok (resources.foldl (fun g r => setA g (resId r) r) [])

/-- The default-fill of engine.go:255-257: if the attribute map has no
`name`, copy the resource name in. -/
def defaultNameAttrs (r : Resource) : List (String × Value) :=
  if (getA r.attributes "name").isSome then r.attributes
  else setA r.attributes "name" (Value.str r.name)

/-- The per-node body of `validateResources` (engine.go:244-262): skip
unsupported nodes; fetch the provider; default the `name` attribute to the
resource name; validate. Returns the node with its (possibly defaulted)
attributes, as the Go version mutates the shared node in place. -/
def validateNode (os : String) (reg : List (String × Provider)) (id : String)
    (r : Resource) : Except EngErr Resource :=
  if ¬ isPlatformSupported os r then Except.ok r
  else
    match registryGet reg r.rtype with
    | Except.error e => Except.error (EngErr.noProvider id e)
    | Except.ok provider =>
      match provider.validate (defaultNameAttrs r) with
      | Except.error msg => Except.error (EngErr.validationFailed id msg)
      | Except.ok _ => Except.ok { r with attributes := defaultNameAttrs r }

/-- `Engine.validateResources` (engine.go:243-265), iterating the node map
in insertion order; the first failure aborts. -/
def validateResources (os : String) (reg : List (String × Provider)) :
    Graph → Except EngErr Graph
  | [] => Except.ok []
  | (id, r) :: rest =>
    match validateNode os reg id r with
    | Except.error e => Except.error e
    | Except.ok r1 =>
      match validateResources os reg rest with
      | Except.error e => Except.error e
      | Except.ok rest1 => Except.ok ((id, r1) :: rest1)

/-- The recursive `visit` of `topoSort` (engine.go:272-300). `stack` is the
set of nodes whose `Visited` flag is true (the current DFS path);
`res` is simultaneously the `visited` map and the post-order `result`
slice, which the source keeps in lockstep. The `for _, dep := range
node.DependsOn` loop is the `foldlM`, stopping at the first error. Fuel
bounds the DFS depth; `|g| + 1` always suffices on well-formed graphs
(proven below). -/
def topoVisit (g : Graph) : Nat → List String → List String → String →
    Except EngErr (List String)
  | 0, _, _, _ => Except.error EngErr.fuel
  | n + 1, stack, res, id =>
    if id ∈ stack then Except.error (EngErr.cycleDetected id)
    else if id ∈ res then Except.ok res
    else
      match (deps g id).foldlM (fun acc d => topoVisit g n (id :: stack) acc d) res with
      | Except.error e => Except.error e
      | Except.ok res1 => Except.ok (res1 ++ [id])

/-- The outer `for _, node := range graph` loop of `topoSort`
(engine.go:302-309), over an explicit iteration order of the node keys
(Go map iteration order is unspecified). -/
def topoVisitAll (g : Graph) (fuel : Nat) : List String → List String →
    Except EngErr (List String)
  | res, [] => Except.ok res
  | res, id :: rest =>
    if id ∈ res then topoVisitAll g fuel res rest
    else
      match topoVisit g fuel [] res id with
      | Except.error e => Except.error e
      | Except.ok res1 => topoVisitAll g fuel res1 rest

/-- `Engine.topoSort` (engine.go:268-317): DFS post-order over all nodes,
then reverse the collected order. Iterates the keys in insertion order with
fuel `|g| + 1` (always sufficient, proven below). -/
def topoSort (g : Graph) : Except EngErr (List String) :=
  match topoVisitAll g (g.length + 1) [] (g.map Prod.fst) with
  | Except.error e => Except.error e
  | Except.ok res => Except.ok res.reverse

/-- The `switch planned.Status` classification in `Engine.Plan`
(engine.go:101-118), including the initialized `no-op` default. -/
def planActionFor (current : List (String × Value)) (status : String) : PlanAction :=
  if status = "planned" then
    if (getA current "path").isSome then ⟨"update", "Resource will be updated"⟩
    else ⟨"create", "Resource will be created"⟩
  else if status = "unchanged" then ⟨"no-op", "Resource already in desired state"⟩
  else ⟨"no-op", "No changes required"⟩

/-- A record of one `provider.Plan` invocation: the resource id and the
`current` map passed (engine.go:91-92 and 174-175). -/
structure PlanCall where
  id : String
  current : List (String × Value)
deriving DecidableEq, Repr

/-- The per-node loop of `Engine.Plan` (engine.go:72-124). Also returns the
log of `provider.Plan` calls made. -/
def enginePlanLoop (os : String) (reg : List (String × Provider)) (g : Graph) :
    List String → List (String × PlanAction) → List PlanCall →
    List (String × PlanAction) × List PlanCall
  | [], results, calls => (results, calls)
  | id :: rest, results, calls =>
    match getA g id with
    | none => enginePlanLoop os reg g rest results calls
    | some r =>
      if ¬ isPlatformSupported os r then enginePlanLoop os reg g rest results calls
      else
        match registryGet reg r.rtype with
        | Except.error e =>
          enginePlanLoop os reg g rest
            (setA results id ⟨"error", "Error getting provider: " ++ e⟩) calls
        | Except.ok provider =>
          let current : List (String × Value) := []
          match provider.plan current r.attributes with
          | Except.error e =>
            enginePlanLoop os reg g rest
              (setA results id ⟨"error", "Error planning: " ++ e⟩)
              (calls ++ [⟨id, current⟩])
          | Except.ok planned =>
            enginePlanLoop os reg g rest
              (setA results id (planActionFor current planned.status))
              (calls ++ [⟨id, current⟩])

/-- `Engine.Plan` (engine.go:52-127): build the graph, validate, topo-sort,
then plan each supported node with an empty `current` map. Returns the plan
map together with the log of `provider.Plan` calls. -/
def enginePlan (os : String) (reg : List (String × Provider))
    (resources : List Resource) :
    Except EngErr (List (String × PlanAction) × List PlanCall) :=
  match buildDependencyGraph resources with
  | Except.error e => Except.error e
  | Except.ok g =>
    match validateResources os reg g with
    | Except.error e => Except.error e
    | Except.ok g1 =>
      match topoSort g1 with
      | Except.error e => Except.error e
      | Except.ok order => Except.ok (enginePlanLoop os reg g1 order [] [])

/-- The per-node loop of `Engine.Apply` (engine.go:149-204). The second
component logs the ids on which `provider.Apply` was invoked, in order. -/
def engineApplyLoop (os : String) (reg : List (String × Provider)) (g : Graph) :
    List String → List (String × ResourceState) → List String →
    List (String × ResourceState) × List String
  | [], results, applies => (results, applies)
  | id :: rest, results, applies =>
    match getA g id with
    | none => engineApplyLoop os reg g rest results applies
    | some r =>
      if ¬ isPlatformSupported os r then engineApplyLoop os reg g rest results applies
      else
        match registryGet reg r.rtype with
        | Except.error e =>
          engineApplyLoop os reg g rest
            (setA results id ⟨r.rtype, r.name, [], "failed", some e⟩) applies
        | Except.ok provider =>
          match provider.plan [] r.attributes with
          | Except.error e =>
            engineApplyLoop os reg g rest
              (setA results id ⟨r.rtype, r.name, [], "failed", some e⟩) applies
          | Except.ok planned =>
            let applies1 := applies ++ [id]
            match provider.apply planned with
            | Except.error e =>
              engineApplyLoop os reg g rest
                (setA results id ⟨r.rtype, r.name, r.attributes, "failed", some e⟩) applies1
            | Except.ok st =>
              engineApplyLoop os reg g rest (setA results id st) applies1

/-- `Engine.Apply` (engine.go:130-207): build the graph, validate,
topo-sort, then plan and apply each supported node in order. The second
component is the log of `provider.Apply` invocations; it is empty whenever
an error aborts before the loop. -/
def engineApply (os : String) (reg : List (String × Provider))
    (resources : List Resource) :
    Except EngErr (List (String × ResourceState)) × List String :=
  match buildDependencyGraph resources with
  | Except.error e => (Except.error e, [])
  | Except.ok g =>
    match validateResources os reg g with
    | Except.error e => (Except.error e, [])
    | Except.ok g1 =>
      match topoSort g1 with
      | Except.error e => (Except.error e, [])
      | Except.ok order =>
        let (results, applies) := engineApplyLoop os reg g1 order [] []
        (Except.ok results, applies)

/-! ## Derived graph notions and concrete fixtures -/

/-- The dependency edge relation of a graph: `edgeOf g a b` when `a`
depends on `b` (there is an out-edge from `a`-s node to `b`-s node). -/
def edgeOf (g : Graph) (a b : String) : Prop :=
  b ∈ deps g a

/-- A node lies on a dependency cycle when it reaches itself through at
least one edge. -/
def OnCycle (g : Graph) (c : String) : Prop :=
  Relation.TransGen (edgeOf g) c c

/-- Every out-edge of the graph points at a node of the graph (guaranteed by
a successful `buildDependencyGraph`). -/
def GraphClosed (g : Graph) : Prop :=
  ∀ id, ∀ d ∈ deps g id, d ∈ g.map Prod.fst

/-- A sequence of node ids in which every listed node-s dependencies are
listed at strictly earlier positions. -/
def GoodOrder (g : Graph) (res : List String) : Prop :=
  ∀ x ∈ res, ∀ d ∈ deps g x, d ∈ res ∧ res.indexOf d < res.indexOf x

/-- The consecutive-edge invariant of the DFS stack: each stack entry is a
dependency of the entry below it. -/
def StackChain (g : Graph) : List String → Prop
  | [] => True
  | [_] => True
  | a :: b :: rest => a ∈ deps g b ∧ StackChain g (b :: rest)

/-- Count of file-system keys not yet in the processed set; bounds the
remaining `ProcessIncludes` recursion depth. -/
def unproc (fs : List (String × String)) (h : IncludeHandler) : Nat :=
  ((fs.map Prod.fst).filter (fun k => decide (k ∉ h.processedFiles))).length

/-- Postcondition bundle of a `ProcessIncludes` call entered with handler
`h`: the processed set only grows, the read log is duplicate-free, every
logged read was fresh on entry and is marked processed on exit, and the
fuel bound was not hit. -/
def PIBundle (h : IncludeHandler) (r : ProcAcc) : Prop :=
  h.processedFiles ⊆ r.2.1.processedFiles ∧
  r.2.2.Nodup ∧
  (∀ p ∈ r.2.2, p ∉ h.processedFiles ∧ p ∈ r.2.1.processedFiles) ∧
  r.1 ≠ Except.error ProcErr.fuel

/-- Invariant carried through the resource/match folds of a
`ProcessIncludes` call at fuel `n + 1` entered with handler `h`: the
processed set extends `h`-s, fewer than `n` file-system keys remain
unprocessed (so the recursive calls at fuel `n` have enough fuel), the
accumulated read log is duplicate-free, every logged read was fresh on
entry and is marked processed, and no fuel error has occurred. -/
def ProcInv (fs : List (String × String)) (n : Nat) (h : IncludeHandler)
    (acc : ProcAcc) : Prop :=
  h.processedFiles ⊆ acc.2.1.processedFiles ∧
  unproc fs acc.2.1 < n ∧
  acc.2.2.Nodup ∧
  (∀ p ∈ acc.2.2, p ∉ h.processedFiles ∧ p ∈ acc.2.1.processedFiles) ∧
  acc.1 ≠ Except.error ProcErr.fuel

/-- A provider that accepts everything: validation succeeds, planning
reports `planned` (carrying the desired attributes), applying reports
`created` — the shape of the mock provider in the engine tests. -/
def trivialProvider : Provider :=
  { validate := fun _ => Except.ok (),
    plan := fun _ desired => Except.ok ⟨"file", "x", desired, "planned", none⟩,
    apply := fun st => Except.ok { st with status := "created" } }

/-- Fixture: a dependency-free file resource `file.a`. -/
def fileA : Resource :=
  { rtype := "file", name := "a", attributes := [("path", Value.str "/a")],
    dependsOn := [], conditions := [] }

/-- Fixture: `file.b`, depending on `file.a`. -/
def fileB : Resource :=
  { rtype := "file", name := "b", attributes := [("path", Value.str "/b")],
    dependsOn := ["file.a"], conditions := [] }

/-- Fixture: `file.a` depending on `file.b` (half of a 2-cycle). -/
def cycA : Resource :=
  { rtype := "file", name := "a", attributes := [], dependsOn := ["file.b"],
    conditions := [] }

/-- Fixture: `file.b` depending on `file.a` (other half of the 2-cycle). -/
def cycB : Resource :=
  { rtype := "file", name := "b", attributes := [], dependsOn := ["file.a"],
    conditions := [] }

/-- Fixture: an off-cycle resource of a type with no registered provider. -/
def offC : Resource :=
  { rtype := "nope", name := "c", attributes := [], dependsOn := [],
    conditions := [] }

/-- The graph built from `[cycA, cycB]`. -/
def gCyc : Graph := [("file.a", cycA), ("file.b", cycB)]

/-- The graph built from `[cycA, cycB, offC]`. -/
def gCyc3 : Graph := [("file.a", cycA), ("file.b", cycB), ("nope.c", offC)]

/-- Fixture: a resource gated on the platform list `["freebsd"]`. -/
def freebsdRes : Resource :=
  { rtype := "file", name := "f", attributes := [], dependsOn := [],
    conditions := [("platform", ["freebsd"])] }

/-- Fixture: `package "nginx"` gated on linux/darwin (src part_000:19-24). -/
def nginx1 : Resource :=
  { rtype := "package", name := "nginx", attributes := [("state", Value.str "installed")],
    dependsOn := [], conditions := [("platform", ["linux", "darwin"])] }

/-- Fixture: a second `package "nginx"` gated on windows (src part_000:27-33). -/
def nginx2 : Resource :=
  { rtype := "package", name := "nginx", attributes := [("state", Value.str "installed")],
    dependsOn := [], conditions := [("platform", ["windows"])] }

/-- The graph built from `[nginx1, nginx2]`: a single node holding the later
resource. -/
def nginxGraph : Graph := [("package.nginx", nginx2)]

/-- The end-to-end scenario input of the variable-substitution claim. -/
def c4Input : String :=
  "variable \"d\" \x7b value = \"/tmp/x\" \x7d file \"$d/y\" \x7b content = \"$d\" \x7d"

/-- A one-file file system holding `c4Input`. -/
def c4Fs : List (String × String) := [("/main.cfg", c4Input)]

/-- The single resource produced by include processing on `c4Input`: the
string attributes are variable-expanded, the resource name is not. -/
def c4OutRes : Resource :=
  { rtype := "file", name := "$d/y",
    attributes := [("path", Value.str "/tmp/x/y"), ("content", Value.str "/tmp/x")],
    dependsOn := [], conditions := [] }

/-- Fixture: a two-file file system in which each file includes the other
(the parser of this source tree only accepts `include` blocks of the shape
`include "x" "y" "path" \x7b \x7d`, due to the lookahead dance in `Parse`). -/
def c8Fs : List (String × String) :=
  [("/a.cfg", "include \"x\" \"y\" \"/b.cfg\" \x7b \x7d"),
   ("/b.cfg", "include \"x\" \"y\" \"/a.cfg\" \x7b \x7d")]

/-- Identity glob: a pattern matches exactly itself. -/
def identGlob : String → List String := fun p => [p]

/-! ## Theorems: association lists -/

theorem getA_setA_self {α : Type} (g : List (String × α)) (k : String) (v : α) :
    getA (setA g k v) k = some v := by
  induction g with
  | nil => simp [setA, getA]
  | cons kv rest ih =>
    by_cases hk : kv.1 = k
    · simp [setA, hk, getA]
    · simp [setA, hk, getA, ih]

theorem getA_setA_ne {α : Type} (g : List (String × α)) (k : String) (v : α)
    (k2 : String) (h : k2 ≠ k) : getA (setA g k v) k2 = getA g k2 := by
  have hne : k ≠ k2 := fun he => h he.symm
  induction g with
  | nil => simp [setA, getA, hne]
  | cons kv rest ih =>
    obtain ⟨a, b⟩ := kv
    by_cases hk : a = k
    · subst hk
      simp [setA, getA, hne]
    · simp [setA, getA, hk, ih]

theorem keys_setA {α : Type} (g : List (String × α)) (k : String) (v : α) :
    (setA g k v).map Prod.fst =
      if k ∈ g.map Prod.fst then g.map Prod.fst else g.map Prod.fst ++ [k] := by
  induction g with
  | nil => simp [setA]
  | cons kv rest ih =>
    by_cases hk : kv.1 = k
    · simp [setA, hk]
    · have hne : k ≠ kv.1 := fun he => hk he.symm
      by_cases hmem : k ∈ rest.map Prod.fst
      · simp [setA, hk, ih, hmem, hne]
      · simp [setA, hk, ih, hmem, hne]

theorem nodup_keys_setA {α : Type} (g : List (String × α)) (k : String) (v : α)
    (h : (g.map Prod.fst).Nodup) : ((setA g k v).map Prod.fst).Nodup := by
  rw [keys_setA]
  by_cases hmem : k ∈ g.map Prod.fst
  · simpa [hmem] using h
  · simp [hmem, List.nodup_append, h]

/-! ## Theorems: `strings.ReplaceAll` and variable expansion (C5) -/

theorem replaceAllF_of_not_occurs (pat rep : List Char) :
    ∀ (n : Nat) (s : List Char), occursIn pat s = false → replaceAllF pat rep n s = s := by
  intro n
  induction n with
  | zero => intro s _; cases s <;> rfl
  | succ n ih =>
    intro s h
    cases s with
    | nil => rfl
    | cons c rest =>
      simp only [occursIn, Bool.or_eq_false_iff] at h
      have hcond : ¬ (pat ≠ [] ∧ pat.isPrefixOf (c :: rest) = true) := by
        intro hc
        rw [h.1] at hc
        exact Bool.false_ne_true hc.2
      show replaceAllF pat rep (n + 1) (c :: rest) = c :: rest
      rw [replaceAllF, if_neg hcond, ih rest h.2]

theorem replaceAll_of_not_occurs (pat rep s : List Char)
    (h : occursIn pat s = false) : replaceAll pat rep s = s :=
  replaceAllF_of_not_occurs pat rep s.length s h

theorem ReplaceVariables_of_no_refs :
    ∀ (vars : List (String × String)) (s : String),
      (∀ kv ∈ vars, occursIn ("$" ++ kv.1).data s.data = false) →
      ReplaceVariables vars s = s := by
  intro vars
  induction vars with
  | nil => intro s _; rfl
  | cons kv rest ih =>
    intro s h
    have h1 : goReplaceAll s ("$" ++ kv.1) kv.2 = s := by
      unfold goReplaceAll
      rw [replaceAll_of_not_occurs _ _ _ (h kv (List.mem_cons_self kv rest))]
    calc ReplaceVariables (kv :: rest) s
        = ReplaceVariables rest (goReplaceAll s ("$" ++ kv.1) kv.2) := by
          simp [ReplaceVariables]
      _ = ReplaceVariables rest s := by rw [h1]
      _ = s := ih s (fun kv2 hm => h kv2 (List.mem_cons_of_mem kv hm))

/-- C5 (amended): variable expansion is idempotent on inputs whose one-pass
expansion contains no residual `$K` reference for any variable `K` of the
table; without that proviso idempotence fails (see the counterexample). -/
theorem ReplaceVariables_idempotent_of_no_residual_refs
    (vars : List (String × String)) (s : String)
    (h : ∀ kv ∈ vars, occursIn ("$" ++ kv.1).data (ReplaceVariables vars s).data = false) :
    ReplaceVariables vars (ReplaceVariables vars s) = ReplaceVariables vars s :=
  ReplaceVariables_of_no_refs vars _ h

/-- C5 (counterexample): with the variable table `a ↦ "$a!"` (definable by
`variable "a" \x7b value = "$a!" \x7d`, since `$a` is unknown at definition
time and left intact), expanding `"$a"` once gives `"$a!"` and expanding
again gives `"$a!!"`: `ReplaceVariables` is not idempotent for every table,
contrary to the claim. -/
theorem ReplaceVariables_not_idempotent_counterexample :
    ReplaceVariables [("a", "$a!")] (ReplaceVariables [("a", "$a!")] "$a") ≠
      ReplaceVariables [("a", "$a!")] "$a" := by decide

/-- Witness for C5 (amended) at the table `a ↦ "b"` and input `"$a"`. -/
theorem ReplaceVariables_idempotent_witness :
    ReplaceVariables [("a", "b")] (ReplaceVariables [("a", "b")] "$a") =
      ReplaceVariables [("a", "b")] "$a" :=
  ReplaceVariables_idempotent_of_no_residual_refs [("a", "b")] "$a" (by decide)

/-! ## Theorems: lexer keyword casing (C9) -/

/-- C9 (amended): identifiers lowercasing to `when`, `depends_on`,
`include`, `variable` or `template` are re-tagged with the keyword kind
regardless of letter case, but `include_platform` is matched
case-sensitively: only the exact lowercase spelling is tagged
INCLUDE_PLATFORM, and any other casing (e.g. `INCLUDE_PLATFORM`) stays
IDENT. -/
theorem identTokenType_keyword_casing :
    (∀ s : String, toLowerGo s = "when" → identTokenType s = TokenType.WHEN) ∧
    (∀ s : String, toLowerGo s = "depends_on" → identTokenType s = TokenType.DEPENDS_ON) ∧
    (∀ s : String, toLowerGo s = "include" → identTokenType s = TokenType.INCLUDE) ∧
    (∀ s : String, toLowerGo s = "variable" → identTokenType s = TokenType.VARIABLE) ∧
    (∀ s : String, toLowerGo s = "template" → identTokenType s = TokenType.TEMPLATE) ∧
    identTokenType "include_platform" = TokenType.INCLUDE_PLATFORM ∧
    (∀ s : String, toLowerGo s = "include_platform" → s ≠ "include_platform" →
      identTokenType s = TokenType.IDENT) := by
  refine ⟨?_, ?_, ?_, ?_, ?_, by decide, ?_⟩
  · intro s h
    have hne : s ≠ "include_platform" := by
      intro he; subst he; exact absurd h (by decide)
    unfold identTokenType
    rw [if_neg hne, h]
    decide
  · intro s h
    have hne : s ≠ "include_platform" := by
      intro he; subst he; exact absurd h (by decide)
    unfold identTokenType
    rw [if_neg hne, h]
    decide
  · intro s h
    have hne : s ≠ "include_platform" := by
      intro he; subst he; exact absurd h (by decide)
    unfold identTokenType
    rw [if_neg hne, h]
    decide
  · intro s h
    have hne : s ≠ "include_platform" := by
      intro he; subst he; exact absurd h (by decide)
    unfold identTokenType
    rw [if_neg hne, h]
    decide
  · intro s h
    have hne : s ≠ "include_platform" := by
      intro he; subst he; exact absurd h (by decide)
    unfold identTokenType
    rw [if_neg hne, h]
    decide
  · intro s h hne
    unfold identTokenType
    rw [if_neg hne, h]
    decide

/-- C9 (counterexample): the all-uppercase identifier `INCLUDE_PLATFORM`
lowercases to the reserved word `include_platform` but is scanned as an
IDENT token, not as INCLUDE_PLATFORM, contrary to the claim. -/
theorem scanToken_uppercase_include_platform_counterexample :
    toLowerGo "INCLUDE_PLATFORM" = "include_platform" ∧
    scanToken "INCLUDE_PLATFORM".data =
      (⟨TokenType.IDENT, "INCLUDE_PLATFORM"⟩, []) ∧
    TokenType.IDENT ≠ TokenType.INCLUDE_PLATFORM := by
  exact ⟨by decide, rfl, by decide⟩

/-- Witness for C9 (amended) at concrete identifiers. -/
theorem identTokenType_keyword_casing_witness :
    identTokenType "WHEN" = TokenType.WHEN ∧
    identTokenType "Depends_On" = TokenType.DEPENDS_ON ∧
    identTokenType "INCLUDE_PLATFORM" = TokenType.IDENT :=
  ⟨identTokenType_keyword_casing.1 "WHEN" (by decide),
   identTokenType_keyword_casing.2.1 "Depends_On" (by decide),
   identTokenType_keyword_casing.2.2.2.2.2.2 "INCLUDE_PLATFORM" (by decide) (by decide)⟩

/-! ## Theorems: platform gating (C7) -/

theorem IsSupported_iff (os : String) (ps : List String) :
    IsSupported os ps = true ↔
      ((os ∈ ps ∧ (os = "linux" ∨ os = "darwin" ∨ os = "windows")) ∨
       ("unix" ∈ ps ∧ (os = "linux" ∨ os = "darwin"))) := by
  unfold IsSupported
  rw [List.any_eq_true]
  constructor
  · rintro ⟨p, hp, hpred⟩
    by_cases h1 : p = "linux" ∨ p = "darwin" ∨ p = "windows"
    · rw [if_pos h1] at hpred
      have hop : os = p := by
        have := of_decide_eq_true hpred
        exact this
      subst hop
      exact Or.inl ⟨hp, h1⟩
    · rw [if_neg h1] at hpred
      by_cases h2 : p = "unix"
      · rw [if_pos h2] at hpred
        subst h2
        rcases Bool.or_eq_true_iff.mp hpred with hl | hd
        · exact Or.inr ⟨hp, Or.inl (of_decide_eq_true hl)⟩
        · exact Or.inr ⟨hp, Or.inr (of_decide_eq_true hd)⟩
      · rw [if_neg h2] at hpred
        exact absurd hpred Bool.false_ne_true
  · rintro (⟨hmem, hrec⟩ | ⟨hunix, hor⟩)
    · refine ⟨os, hmem, ?_⟩
      rw [if_pos hrec]
      exact beq_self_eq_true os
    · refine ⟨"unix", hunix, ?_⟩
      rw [if_neg (by decide), if_pos rfl]
      rcases hor with h | h
      · subst h; decide
      · subst h; decide

/-- C7 (amended): a resource passes the platform gate exactly when its
`platform` condition is absent, or the host OS occurs in the list and is one
of the three recognized tags `linux`/`darwin`/`windows`, or the list
contains `unix` and the host is linux or darwin. (On hosts outside the
three recognized tags, membership of the host OS in the list does not make
the resource supported — see the counterexample.) -/
theorem isPlatformSupported_iff (os : String) (r : Resource) :
    isPlatformSupported os r = true ↔
      getA r.conditions "platform" = none ∨
      ∃ ps, getA r.conditions "platform" = some ps ∧
        ((os ∈ ps ∧ (os = "linux" ∨ os = "darwin" ∨ os = "windows")) ∨
         ("unix" ∈ ps ∧ (os = "linux" ∨ os = "darwin"))) := by
  unfold isPlatformSupported
  cases hx : getA r.conditions "platform" with
  | none => simp
  | some ps => simp [IsSupported_iff]

/-- C7 (counterexample): on a `freebsd` host, a resource whose platform
list is exactly `["freebsd"]` satisfies `O ∈ P` yet is not supported, so
the claimed equivalence fails as stated. -/
theorem isPlatformSupported_unrecognized_os_counterexample :
    getA freebsdRes.conditions "platform" = some ["freebsd"] ∧
    "freebsd" ∈ ["freebsd"] ∧
    isPlatformSupported "freebsd" freebsdRes = false := by
  exact ⟨rfl, by decide, by decide⟩

/-! ## Theorems: graph keyed by type.name, last write wins (C10) -/

theorem getA_foldl_setA (rs : List Resource) :
    ∀ (g : Graph) (id : String),
      getA (rs.foldl (fun g r => setA g (resId r) r) g) id =
        (match rs.reverse.find? (fun r => resId r == id) with
         | some r => some r
         | none => getA g id) := by
  induction rs with
  | nil => intro g id; simp
  | cons r rest ih =>
    intro g id
    rw [List.foldl_cons, ih]
    have hsplit : (r :: rest).reverse.find? (fun r => resId r == id) =
        ((rest.reverse.find? (fun r => resId r == id)).or
          ([r].find? (fun r => resId r == id))) := by
      rw [List.reverse_cons, List.find?_append]
    rw [hsplit]
    cases hfind : rest.reverse.find? (fun r => resId r == id) with
    | some rr => simp
    | none =>
      simp only [Option.none_or]
      by_cases hid : resId r = id
      · subst hid
        simp [List.find?, getA_setA_self]
      · have hbeq : (resId r == id) = false := beq_eq_false_iff_ne.mpr hid
        simp [List.find?, hbeq, getA_setA_ne g (resId r) r id (fun he => hid he.symm)]

theorem nodup_keys_foldl_setA (rs : List Resource) :
    ∀ (g : Graph), (g.map Prod.fst).Nodup →
      ((rs.foldl (fun g r => setA g (resId r) r) g).map Prod.fst).Nodup := by
  induction rs with
  | nil => intro g h; exact h
  | cons r rest ih =>
    intro g h
    rw [List.foldl_cons]
    exact ih _ (nodup_keys_setA g (resId r) r h)

/-- C10: `buildDependencyGraph` keys one node per `"type.name"`; a later
resource with the same key silently overwrites an earlier one, so the graph
holds one node per distinct key and the node for any key carries the last
resource in input order with that key (which is therefore the one that is
validated, planned and applied, since all later phases reach resources only
through graph lookups). -/
theorem buildDependencyGraph_last_wins (rs : List Resource) (g : Graph)
    (h : buildDependencyGraph rs = Except.ok g) :
    ((g.map Prod.fst).Nodup) ∧
    ∀ id, getA g id = rs.reverse.find? (fun r => resId r == id) := by
  have hg : g = rs.foldl (fun g r => setA g (resId r) r) [] := by
    unfold buildDependencyGraph at h
    split at h
    · exact absurd h (by simp)
    · injection h with h2
      exact h2.symm
  subst hg
  refine ⟨nodup_keys_foldl_setA rs [] (by simp), fun id => ?_⟩
  rw [getA_foldl_setA rs [] id]
  cases rs.reverse.find? (fun r => resId r == id) <;> simp [getA]

/-- Witness for C10 at the duplicated `package "nginx"` pair: the built
graph is the single node holding the windows-gated second block, and on a
linux host the plan is therefore empty (the last block is the one planned,
and it is gated off). -/
theorem buildDependencyGraph_last_wins_witness :
    (((nginxGraph.map Prod.fst).Nodup) ∧
      ∀ id, getA nginxGraph id =
        [nginx1, nginx2].reverse.find? (fun r => resId r == id)) ∧
    getA nginxGraph "package.nginx" = some nginx2 ∧
    enginePlan "linux" [("package", trivialProvider)] [nginx1, nginx2] =
      Except.ok ([], []) :=
  ⟨buildDependencyGraph_last_wins [nginx1, nginx2] nginxGraph rfl, rfl, rfl⟩

/-! ## Theorems: engine ordering (C1), end-to-end scenarios (C4, C6) -/

/-- C1: the claim is refuted by the code: `topoSort` collects a DFS
post-order in which dependencies already precede dependents, and then
reverses it, so the sequence Plan and Apply iterate has every dependent
BEFORE its dependencies. On the two-node chain `file.b depends_on file.a`,
Apply invokes the provider on `file.b` first and `file.a` second,
contradicting `apply(u) before apply(v)`. -/
theorem engineApply_applies_dependents_first :
    fileB.dependsOn = ["file.a"] ∧
    (engineApply "linux" [("file", trivialProvider)] [fileA, fileB]).2 =
      ["file.b", "file.a"] :=
  ⟨rfl, rfl⟩

/-- C4 (amended): on the scenario input, include processing yields exactly
one `file` resource whose `path` and `content` attributes are
variable-expanded as claimed, but whose name keeps the literal `$d/y`:
`ProcessIncludes` applies `ReplaceVariables` to string attribute values
only, never to the resource name. -/
theorem processIncludes_substitutes_attributes_only :
    (ProcessIncludes "linux" identGlob c4Fs 2 (NewIncludeHandler "/") "/main.cfg").1 =
      Except.ok [c4OutRes] ∧
    c4OutRes.attributes = [("path", Value.str "/tmp/x/y"), ("content", Value.str "/tmp/x")] :=
  ⟨rfl, rfl⟩

/-- C4 (counterexample): the produced resource is named `$d/y`, not the
claimed `/tmp/x/y`. -/
theorem processIncludes_name_not_substituted_counterexample :
    (ProcessIncludes "linux" identGlob c4Fs 2 (NewIncludeHandler "/") "/main.cfg").1 =
      Except.ok [c4OutRes] ∧
    c4OutRes.name ≠ "/tmp/x/y" :=
  ⟨rfl, by decide⟩

/-- C6: on the parser-recovery scenario `resource "bad" \x7b @ \x7d
file "good" \x7b content = "x" \x7d`, the parse failure in the first block
is recorded, the parser resynchronizes past that block-s closing brace, and
the following well-formed block is still parsed: `Parse` returns the later
sibling resource together with a nonempty error list (the Go version wraps
the nonempty list into a non-nil composite error). -/
theorem parse_error_recovery_scenario :
    Parse "resource \"bad\" \x7b @ \x7d  file \"good\" \x7b content = \"x\" \x7d" =
      ([{ rtype := "file", name := "good",
          attributes := [("path", Value.str "good"), ("content", Value.str "x")],
          dependsOn := [], conditions := [] }],
       ["Error parsing resource: unexpected token in resource block: @"]) := rfl

/-! ## Theorems: plan classification (C3) -/

theorem mem_setA {α : Type} (l : List (String × α)) (k : String) (v : α) :
    ∀ kv ∈ setA l k v, kv ∈ l ∨ kv = (k, v) := by
  induction l with
  | nil =>
    intro kv hm
    simp only [setA, List.mem_singleton] at hm
    exact Or.inr hm
  | cons ab rest ih =>
    intro kv hm
    obtain ⟨a, b⟩ := ab
    by_cases hk : a = k
    · subst hk
      simp [setA] at hm
      rcases hm with hm1 | hm1
      · exact Or.inr hm1
      · exact Or.inl (List.mem_cons_of_mem _ hm1)
    · simp [setA, hk] at hm
      rcases hm with hm1 | hm1
      · exact Or.inl (by rw [hm1]; exact List.mem_cons_self _ _)
      · rcases ih kv hm1 with h | h
        · exact Or.inl (List.mem_cons_of_mem _ h)
        · exact Or.inr h

theorem planActionFor_empty_ne_update (status : String) :
    (planActionFor [] status).action ≠ "update" := by
  unfold planActionFor
  split_ifs with h1 h2 h3 <;> simp_all [getA]

theorem enginePlanLoop_invariant (os : String) (reg : List (String × Provider))
    (g : Graph) :
    ∀ (order : List String) (results : List (String × PlanAction)) (calls : List PlanCall),
      (∀ kv ∈ results, kv.2.action ≠ "update") → (∀ c ∈ calls, c.current = []) →
      (∀ kv ∈ (enginePlanLoop os reg g order results calls).1, kv.2.action ≠ "update") ∧
      (∀ c ∈ (enginePlanLoop os reg g order results calls).2, c.current = []) := by
  intro order
  induction order with
  | nil => intro results calls h1 h2; exact ⟨h1, h2⟩
  | cons id rest ih =>
    intro results calls h1 h2
    have hsetA : ∀ act : PlanAction, act.action ≠ "update" →
        ∀ kv ∈ setA results id act, kv.2.action ≠ "update" := by
      intro act hact kv hm
      rcases mem_setA results id act kv hm with h | h
      · exact h1 kv h
      · rw [h]; exact hact
    have hcalls : ∀ c ∈ calls ++ [PlanCall.mk id []], c.current = [] := by
      intro c hm
      rcases List.mem_append.mp hm with h | h
      · exact h2 c h
      · rw [List.mem_singleton.mp h]
    cases hn : getA g id with
    | none =>
      have hstep : enginePlanLoop os reg g (id :: rest) results calls =
          enginePlanLoop os reg g rest results calls := by
        simp [enginePlanLoop, hn]
      rw [hstep]
      exact ih results calls h1 h2
    | some r =>
      by_cases hs : isPlatformSupported os r = true
      · cases hreg : registryGet reg r.rtype with
        | error e =>
          have hstep : enginePlanLoop os reg g (id :: rest) results calls =
              enginePlanLoop os reg g rest
                (setA results id ⟨"error", "Error getting provider: " ++ e⟩) calls := by
            simp [enginePlanLoop, hn, hs, hreg]
          rw [hstep]
          exact ih _ calls
            (hsetA ⟨"error", "Error getting provider: " ++ e⟩
              (by show ("error" : String) ≠ "update"; decide)) h2
        | ok provider =>
          cases hplan : provider.plan [] r.attributes with
          | error e =>
            have hstep : enginePlanLoop os reg g (id :: rest) results calls =
                enginePlanLoop os reg g rest
                  (setA results id ⟨"error", "Error planning: " ++ e⟩)
                  (calls ++ [PlanCall.mk id []]) := by
              simp [enginePlanLoop, hn, hs, hreg, hplan]
            rw [hstep]
            exact ih _ _
              (hsetA ⟨"error", "Error planning: " ++ e⟩
                (by show ("error" : String) ≠ "update"; decide)) hcalls
          | ok planned =>
            have hstep : enginePlanLoop os reg g (id :: rest) results calls =
                enginePlanLoop os reg g rest
                  (setA results id (planActionFor [] planned.status))
                  (calls ++ [PlanCall.mk id []]) := by
              simp [enginePlanLoop, hn, hs, hreg, hplan]
            rw [hstep]
            exact ih _ _
              (hsetA (planActionFor [] planned.status)
                (planActionFor_empty_ne_update planned.status)) hcalls
      · have hstep : enginePlanLoop os reg g (id :: rest) results calls =
            enginePlanLoop os reg g rest results calls := by
          simp [enginePlanLoop, hn, hs]
        rw [hstep]
        exact ih results calls h1 h2

/-- C3: whenever `Engine.Plan` succeeds, every `provider.Plan` call it made
received the empty `current` map, the classification maps provider status
`planned` to action `create` and `unchanged` to `no-op` (with an empty
current map), and no entry of the returned plan map carries the action
`update`. -/
theorem enginePlan_empty_current_no_update (os : String)
    (reg : List (String × Provider)) (resources : List Resource)
    (m : List (String × PlanAction)) (calls : List PlanCall)
    (h : enginePlan os reg resources = Except.ok (m, calls)) :
    (∀ c ∈ calls, c.current = []) ∧
    (∀ kv ∈ m, kv.2.action ≠ "update") ∧
    planActionFor [] "planned" = ⟨"create", "Resource will be created"⟩ ∧
    planActionFor [] "unchanged" = ⟨"no-op", "Resource already in desired state"⟩ := by
  unfold enginePlan at h
  cases hbuild : buildDependencyGraph resources with
  | error e => rw [hbuild] at h; exact absurd h (by simp)
  | ok g0 =>
    simp only [hbuild] at h
    cases hval : validateResources os reg g0 with
    | error e => rw [hval] at h; exact absurd h (by simp)
    | ok g1 =>
      simp only [hval] at h
      cases hts : topoSort g1 with
      | error e => rw [hts] at h; exact absurd h (by simp)
      | ok order =>
        simp only [hts, Except.ok.injEq] at h
        have hinv := enginePlanLoop_invariant os reg g1 order [] []
          (by intro kv hm; exact absurd hm (List.not_mem_nil kv))
          (by intro c hm; exact absurd hm (List.not_mem_nil c))
        rw [h] at hinv
        exact ⟨hinv.2, hinv.1, rfl, rfl⟩

/-- Witness for C3 at a concrete one-resource run. -/
theorem enginePlan_empty_current_no_update_witness :
    (∀ c ∈ [PlanCall.mk "file.a" []], c.current = []) ∧
    (∀ kv ∈ [("file.a", PlanAction.mk "create" "Resource will be created")],
      kv.2.action ≠ "update") ∧
    planActionFor [] "planned" = ⟨"create", "Resource will be created"⟩ ∧
    planActionFor [] "unchanged" = ⟨"no-op", "Resource already in desired state"⟩ :=
  enginePlan_empty_current_no_update "linux" [("file", trivialProvider)] [fileA]
    [("file.a", PlanAction.mk "create" "Resource will be created")]
    [PlanCall.mk "file.a" []] rfl

/-! ## Theorems: topological sort and cycle detection (C2) -/

theorem nodup_length_le {l l2 : List String} (hnd : l.Nodup)
    (hsub : ∀ x ∈ l, x ∈ l2) : l.length ≤ l2.length := by
  induction l generalizing l2 with
  | nil => simp
  | cons a rest ih =>
    have ha : a ∈ l2 := hsub a (List.mem_cons_self a rest)
    have hlpos : 0 < l2.length := List.length_pos.mpr (List.ne_nil_of_mem ha)
    have hrest : ∀ x ∈ rest, x ∈ l2.erase a := by
      intro x hx
      have hxa : x ≠ a := by
        intro he; subst he
        exact (List.nodup_cons.mp hnd).1 hx
      exact (List.mem_erase_of_ne hxa).mpr (hsub x (List.mem_cons_of_mem a hx))
    have := ih (List.nodup_cons.mp hnd).2 hrest
    rw [List.length_erase_of_mem ha] at this
    simp only [List.length_cons]
    omega

theorem indexOf_append_of_not_mem {x : String} {l l2 : List String}
    (h : x ∉ l) : (l ++ l2).indexOf x = l.length + l2.indexOf x := by
  induction l with
  | nil => simp
  | cons a rest ih =>
    have hax : a ≠ x := fun he => h (by rw [he]; exact List.mem_cons_self x rest)
    have hx : x ∉ rest := fun hm => h (List.mem_cons_of_mem a hm)
    simp only [List.cons_append, List.indexOf_cons_ne _ hax, ih hx, List.length_cons]
    omega

theorem getA_isSome_mem_keys {α : Type} :
    ∀ (g : List (String × α)) (id : String), (getA g id).isSome →
      id ∈ g.map Prod.fst := by
  intro g id
  induction g with
  | nil => intro h; simp [getA] at h
  | cons kv rest ih =>
    intro h
    by_cases hk : kv.1 = id
    · rw [List.map_cons, hk]
      exact List.mem_cons_self id _
    · rw [getA, if_neg hk] at h
      exact List.mem_cons_of_mem _ (ih h)

theorem mem_keys_of_deps_ne_nil {g : Graph} {c : String} (h : deps g c ≠ []) :
    c ∈ g.map Prod.fst := by
  apply getA_isSome_mem_keys
  unfold deps at h
  cases hg : getA g c with
  | none => rw [hg] at h; exact absurd rfl h
  | some r => rfl

theorem not_reaches_of_deps_nil {g : Graph} {c : String} (h : deps g c = []) :
    ∀ x, ¬ Relation.TransGen (edgeOf g) c x := by
  intro x hx
  induction hx with
  | single hr => rw [edgeOf, h] at hr; exact absurd hr (List.not_mem_nil _)
  | tail _ _ ih => exact ih

theorem goodOrder_append (g : Graph) (res : List String) (id : String)
    (hgood : GoodOrder g res) (hid : id ∉ res)
    (hdeps : ∀ d ∈ deps g id, d ∈ res) : GoodOrder g (res ++ [id]) := by
  intro x hx d hd
  rcases List.mem_append.mp hx with hx1 | hx1
  · obtain ⟨hdres, hlt⟩ := hgood x hx1 d hd
    refine ⟨List.mem_append_of_mem_left _ hdres, ?_⟩
    rw [List.indexOf_append_of_mem hdres, List.indexOf_append_of_mem hx1]
    exact hlt
  · have hxid : x = id := List.mem_singleton.mp hx1
    subst hxid
    have hdres := hdeps d hd
    refine ⟨List.mem_append_of_mem_left _ hdres, ?_⟩
    rw [List.indexOf_append_of_mem hdres, indexOf_append_of_not_mem hid]
    have h1 : res.indexOf d < res.length := List.indexOf_lt_length.mpr hdres
    omega

theorem goodOrder_reaches (g : Graph) (res : List String) (hgood : GoodOrder g res) :
    ∀ a b, Relation.TransGen (edgeOf g) a b → a ∈ res →
      b ∈ res ∧ res.indexOf b < res.indexOf a := by
  intro a b h
  induction h with
  | single hr => intro ha; exact hgood a ha _ hr
  | tail _ hr ih =>
    intro ha
    obtain ⟨hb, hlt⟩ := ih ha
    obtain ⟨hc, hlt2⟩ := hgood _ hb _ hr
    exact ⟨hc, Nat.lt_trans hlt2 hlt⟩

theorem goodOrder_no_cycle (g : Graph) (res : List String) (hgood : GoodOrder g res)
    (c : String) (hc : OnCycle g c) : c ∉ res := by
  intro hmem
  obtain ⟨_, hlt⟩ := goodOrder_reaches g res hgood c c hc hmem
  exact Nat.lt_irrefl _ hlt

theorem stackChain_reaches (g : Graph) :
    ∀ (stack : List String) (t : String), StackChain g (t :: stack) →
      ∀ j ∈ stack, Relation.TransGen (edgeOf g) j t := by
  intro stack
  induction stack with
  | nil => intro t _ j hj; exact absurd hj (List.not_mem_nil j)
  | cons a rest ih =>
    intro t hch j hj
    obtain ⟨hedge, hrest⟩ := hch
    rcases List.mem_cons.mp hj with hj1 | hj1
    · subst hj1
      exact Relation.TransGen.single hedge
    · exact Relation.TransGen.tail (ih a hrest j hj1) hedge

theorem topoVisit_ne_fuel (g : Graph) (hclosed : GraphClosed g) :
    ∀ (n : Nat) (stack res : List String) (id : String),
      stack.Nodup → (∀ x ∈ stack, x ∈ g.map Prod.fst) → id ∈ g.map Prod.fst →
      (g.map Prod.fst).length + 1 ≤ n + stack.length →
      topoVisit g n stack res id ≠ Except.error EngErr.fuel := by
  intro n
  induction n with
  | zero =>
    intro stack res id hnd hsub _ hlen
    have hle : stack.length ≤ (g.map Prod.fst).length := nodup_length_le hnd hsub
    exact absurd hlen (by omega)
  | succ n ih =>
    intro stack res id hnd hsub hid hlen
    by_cases hst : id ∈ stack
    · simp [topoVisit, hst]
    · by_cases hres : id ∈ res
      · simp [topoVisit, hst, hres]
      · have hfold : ∀ (ds : List String), (∀ d ∈ ds, d ∈ g.map Prod.fst) →
            ∀ acc, List.foldlM (fun acc d => topoVisit g n (id :: stack) acc d) acc ds ≠
              Except.error EngErr.fuel := by
          intro ds
          induction ds with
          | nil =>
            intro _ acc
            rw [List.foldlM_nil]
            exact fun hcon => Except.noConfusion hcon
          | cons d ds2 ihds =>
            intro hmem acc
            rw [List.foldlM_cons]
            cases hv : topoVisit g n (id :: stack) acc d with
            | error e =>
              have hne := ih (id :: stack) acc d
                (List.nodup_cons.mpr ⟨hst, hnd⟩)
                (by
                  intro x hx
                  rcases List.mem_cons.mp hx with hx1 | hx1
                  · rw [hx1]; exact hid
                  · exact hsub x hx1)
                (hmem d (List.mem_cons_self d ds2))
                (by simp only [List.length_cons]; omega)
              rw [hv] at hne
              intro hcon
              apply hne
              have hbind : (Except.error e >>= fun a =>
                  List.foldlM (fun acc d => topoVisit g n (id :: stack) acc d) a ds2) =
                  (Except.error e : Except EngErr (List String)) := rfl
              rw [hbind] at hcon
              rw [hcon]
            | ok acc1 =>
              have hbind : (Except.ok acc1 >>= fun a =>
                  List.foldlM (fun acc d => topoVisit g n (id :: stack) acc d) a ds2) =
                  List.foldlM (fun acc d => topoVisit g n (id :: stack) acc d) acc1 ds2 := rfl
              rw [hbind]
              exact ihds (fun d2 hd2 => hmem d2 (List.mem_cons_of_mem d hd2)) acc1
        have hstep : topoVisit g (n + 1) stack res id =
            match (deps g id).foldlM (fun acc d => topoVisit g n (id :: stack) acc d) res with
            | Except.error e => Except.error e
            | Except.ok res1 => Except.ok (res1 ++ [id]) := by
          simp [topoVisit, hst, hres]
        rw [hstep]
        cases hE : (deps g id).foldlM (fun acc d => topoVisit g n (id :: stack) acc d) res with
        | error e =>
          have := hfold (deps g id) (hclosed id) res
          rw [hE] at this
          intro hcon
          apply this
          injection hcon with h2
          rw [h2]
        | ok res1 => simp

theorem topoVisit_ok (g : Graph) :
    ∀ (n : Nat) (stack res : List String) (id : String) (res1 : List String),
      topoVisit g n stack res id = Except.ok res1 →
      (res <+: res1) ∧ id ∈ res1 ∧ (∀ x ∈ res1, x ∈ res ∨ x ∉ stack) ∧
      (res.Nodup → GoodOrder g res → res1.Nodup ∧ GoodOrder g res1) := by
  intro n
  induction n with
  | zero =>
    intro stack res id res1 h
    exact absurd h (by simp [topoVisit])
  | succ n ih =>
    intro stack res id res1 h
    by_cases hst : id ∈ stack
    · exact absurd h (by simp [topoVisit, hst])
    · by_cases hres : id ∈ res
      · have h2 : res = res1 := by
          have hstep : topoVisit g (n + 1) stack res id = Except.ok res := by
            simp [topoVisit, hst, hres]
          rw [hstep] at h
          injection h
        subst h2
        exact ⟨List.prefix_refl res, hres, fun x hx => Or.inl hx, fun a b => ⟨a, b⟩⟩
      · have hfold : ∀ (ds : List String) (acc acc1 : List String),
            List.foldlM (fun acc d => topoVisit g n (id :: stack) acc d) acc ds =
              Except.ok acc1 →
            (acc <+: acc1) ∧ (∀ d ∈ ds, d ∈ acc1) ∧
            (∀ x ∈ acc1, x ∈ acc ∨ x ∉ (id :: stack)) ∧
            (acc.Nodup → GoodOrder g acc → acc1.Nodup ∧ GoodOrder g acc1) := by
          intro ds
          induction ds with
          | nil =>
            intro acc acc1 hfd
            rw [List.foldlM_nil] at hfd
            have h2 : acc = acc1 := by
              have hfd2 : Except.ok acc = Except.ok acc1 := hfd
              injection hfd2
            subst h2
            exact ⟨List.prefix_refl acc, fun d hd => absurd hd (List.not_mem_nil d),
              fun x hx => Or.inl hx, fun a b => ⟨a, b⟩⟩
          | cons d ds2 ihds =>
            intro acc acc1 hfd
            rw [List.foldlM_cons] at hfd
            cases hv : topoVisit g n (id :: stack) acc d with
            | error e =>
              rw [hv] at hfd
              exact absurd (show Except.error e = Except.ok acc1 from hfd) (by simp)
            | ok accm =>
              rw [hv] at hfd
              have hfd2 : List.foldlM (fun acc d => topoVisit g n (id :: stack) acc d)
                  accm ds2 = Except.ok acc1 := hfd
              obtain ⟨hp1, hidm, hstk1, hinv1⟩ := ih (id :: stack) acc d accm hv
              obtain ⟨hp2, hds2, hstk2, hinv2⟩ := ihds accm acc1 hfd2
              refine ⟨hp1.trans hp2, ?_, ?_, ?_⟩
              · intro d2 hd2
                rcases List.mem_cons.mp hd2 with h3 | h3
                · subst h3; exact hp2.subset hidm
                · exact hds2 d2 h3
              · intro x hx
                rcases hstk2 x hx with h3 | h3
                · rcases hstk1 x h3 with h4 | h4
                  · exact Or.inl h4
                  · exact Or.inr h4
                · exact Or.inr h3
              · intro hnd hg
                obtain ⟨hnd1, hg1⟩ := hinv1 hnd hg
                exact hinv2 hnd1 hg1
        have hstep : topoVisit g (n + 1) stack res id =
            match (deps g id).foldlM (fun acc d => topoVisit g n (id :: stack) acc d) res with
            | Except.error e => Except.error e
            | Except.ok res2 => Except.ok (res2 ++ [id]) := by
          simp [topoVisit, hst, hres]
        rw [hstep] at h
        cases hE : (deps g id).foldlM (fun acc d => topoVisit g n (id :: stack) acc d) res with
        | error e =>
          rw [hE] at h
          exact absurd h (by simp)
        | ok res2 =>
          rw [hE] at h
          have h2 : res2 ++ [id] = res1 := by injection h
          subst h2
          obtain ⟨hp, hds, hstk, hinv⟩ := hfold (deps g id) res res2 hE
          refine ⟨hp.trans (List.prefix_append res2 [id]), by simp, ?_, ?_⟩
          · intro x hx
            rcases List.mem_append.mp hx with h3 | h3
            · rcases hstk x h3 with h4 | h4
              · exact Or.inl h4
              · exact Or.inr (fun hcon => h4 (List.mem_cons_of_mem id hcon))
            · rw [List.mem_singleton.mp h3]
              exact Or.inr hst
          · intro hnd hg
            obtain ⟨hnd2, hg2⟩ := hinv hnd hg
            have hidnot : id ∉ res2 := by
              intro hcon
              rcases hstk id hcon with h4 | h4
              · exact hres h4
              · exact h4 (List.mem_cons_self id stack)
            constructor
            · simp [List.nodup_append, hnd2, hidnot]
            · exact goodOrder_append g res2 id hg2 hidnot (fun d hd => hds d hd)

theorem topoVisitAll_ok (g : Graph) (fuel : Nat) :
    ∀ (order res res1 : List String),
      topoVisitAll g fuel res order = Except.ok res1 →
      (res <+: res1) ∧ (∀ id ∈ order, id ∈ res1) ∧
      (res.Nodup → GoodOrder g res → res1.Nodup ∧ GoodOrder g res1) := by
  intro order
  induction order with
  | nil =>
    intro res res1 h
    have h2 : res = res1 := by
      have h3 : Except.ok res = Except.ok res1 := h
      injection h3
    subst h2
    exact ⟨List.prefix_refl res, fun i hi => absurd hi (List.not_mem_nil i),
      fun a b => ⟨a, b⟩⟩
  | cons id rest ihall =>
    intro res res1 h
    by_cases hres : id ∈ res
    · have hstep : topoVisitAll g fuel res (id :: rest) = topoVisitAll g fuel res rest := by
        simp [topoVisitAll, hres]
      rw [hstep] at h
      obtain ⟨hp, hmem, hinv⟩ := ihall res res1 h
      refine ⟨hp, ?_, hinv⟩
      intro i hi
      rcases List.mem_cons.mp hi with h3 | h3
      · subst h3; exact hp.subset hres
      · exact hmem i h3
    · have hstep : topoVisitAll g fuel res (id :: rest) =
          match topoVisit g fuel [] res id with
          | Except.error e => Except.error e
          | Except.ok res2 => topoVisitAll g fuel res2 rest := by
        simp [topoVisitAll, hres]
      rw [hstep] at h
      cases hv : topoVisit g fuel [] res id with
      | error e =>
        rw [hv] at h
        exact absurd h (by simp)
      | ok res2 =>
        rw [hv] at h
        obtain ⟨hp1, hid, _, hinv1⟩ := topoVisit_ok g fuel [] res id res2 hv
        obtain ⟨hp2, hmem2, hinv2⟩ := ihall res2 res1 h
        refine ⟨hp1.trans hp2, ?_, ?_⟩
        · intro i hi
          rcases List.mem_cons.mp hi with h3 | h3
          · subst h3; exact hp2.subset hid
          · exact hmem2 i h3
        · intro hnd hg
          obtain ⟨hnd1, hg1⟩ := hinv1 hnd hg
          exact hinv2 hnd1 hg1

theorem topoVisitAll_ne_fuel (g : Graph) (hclosed : GraphClosed g) :
    ∀ (order res : List String),
      (∀ id ∈ order, id ∈ g.map Prod.fst) →
      topoVisitAll g ((g.map Prod.fst).length + 1) res order ≠
        Except.error EngErr.fuel := by
  intro order
  induction order with
  | nil =>
    intro res _ hcon
    exact Except.noConfusion hcon
  | cons id rest ihall =>
    intro res hmem
    by_cases hres : id ∈ res
    · have hstep : topoVisitAll g ((g.map Prod.fst).length + 1) res (id :: rest) =
          topoVisitAll g ((g.map Prod.fst).length + 1) res rest := by
        simp [topoVisitAll, hres]
      rw [hstep]
      exact ihall res (fun i hi => hmem i (List.mem_cons_of_mem id hi))
    · have hstep : topoVisitAll g ((g.map Prod.fst).length + 1) res (id :: rest) =
          match topoVisit g ((g.map Prod.fst).length + 1) [] res id with
          | Except.error e => Except.error e
          | Except.ok res2 => topoVisitAll g ((g.map Prod.fst).length + 1) res2 rest := by
        simp [topoVisitAll, hres]
      rw [hstep]
      cases hv : topoVisit g ((g.map Prod.fst).length + 1) [] res id with
      | error e =>
        have hne := topoVisit_ne_fuel g hclosed ((g.map Prod.fst).length + 1) [] res id
          List.nodup_nil (fun x hx => absurd hx (List.not_mem_nil x))
          (hmem id (List.mem_cons_self id rest)) (by simp)
        rw [hv] at hne
        intro hcon
        apply hne
        injection hcon with h2
        rw [h2]
      | ok res2 => exact ihall res2 (fun i hi => hmem i (List.mem_cons_of_mem id hi))

theorem topoVisit_cycle_sound (g : Graph) :
    ∀ (n : Nat) (stack res : List String) (id c : String),
      StackChain g (id :: stack) →
      topoVisit g n stack res id = Except.error (EngErr.cycleDetected c) →
      OnCycle g c := by
  intro n
  induction n with
  | zero =>
    intro stack res id c _ h
    have h2 : EngErr.fuel = EngErr.cycleDetected c := by injection h
    exact absurd h2 (by simp)
  | succ n ih =>
    intro stack res id c hchain h
    by_cases hst : id ∈ stack
    · have hstep : topoVisit g (n + 1) stack res id =
          Except.error (EngErr.cycleDetected id) := by
        simp [topoVisit, hst]
      rw [hstep] at h
      have h2 : EngErr.cycleDetected id = EngErr.cycleDetected c := by injection h
      have h3 : id = c := by injection h2
      subst h3
      exact stackChain_reaches g stack id hchain id hst
    · by_cases hres : id ∈ res
      · exact absurd h (by simp [topoVisit, hst, hres])
      · have hfold : ∀ (ds : List String), (∀ d ∈ ds, d ∈ deps g id) →
            ∀ acc, List.foldlM (fun acc d => topoVisit g n (id :: stack) acc d) acc ds =
              Except.error (EngErr.cycleDetected c) → OnCycle g c := by
          intro ds
          induction ds with
          | nil =>
            intro _ acc hfd
            rw [List.foldlM_nil] at hfd
            exact absurd (show Except.ok acc = Except.error (EngErr.cycleDetected c) from hfd)
              (by simp)
          | cons d ds2 ihds =>
            intro hmem acc hfd
            rw [List.foldlM_cons] at hfd
            cases hv : topoVisit g n (id :: stack) acc d with
            | error e =>
              rw [hv] at hfd
              have h2 : e = EngErr.cycleDetected c := by
                have h3 : Except.error e =
                    (Except.error (EngErr.cycleDetected c) : Except EngErr (List String)) := hfd
                injection h3
              subst h2
              exact ih (id :: stack) acc d c
                ⟨hmem d (List.mem_cons_self d ds2), hchain⟩ hv
            | ok accm =>
              rw [hv] at hfd
              exact ihds (fun d2 hd2 => hmem d2 (List.mem_cons_of_mem d hd2)) accm hfd
        have hstep : topoVisit g (n + 1) stack res id =
            match (deps g id).foldlM (fun acc d => topoVisit g n (id :: stack) acc d) res with
            | Except.error e => Except.error e
            | Except.ok res1 => Except.ok (res1 ++ [id]) := by
          simp [topoVisit, hst, hres]
        rw [hstep] at h
        cases hE : (deps g id).foldlM (fun acc d => topoVisit g n (id :: stack) acc d) res with
        | error e =>
          rw [hE] at h
          have h2 : e = EngErr.cycleDetected c := by injection h
          subst h2
          exact hfold (deps g id) (fun d hd => hd) res hE
        | ok res2 =>
          rw [hE] at h
          exact absurd h (by simp)

theorem topoVisit_error_shape (g : Graph) :
    ∀ (n : Nat) (stack res : List String) (id : String) (e : EngErr),
      topoVisit g n stack res id = Except.error e →
      e = EngErr.fuel ∨ ∃ c, e = EngErr.cycleDetected c := by
  intro n
  induction n with
  | zero =>
    intro stack res id e h
    have h2 : EngErr.fuel = e := by injection h
    exact Or.inl h2.symm
  | succ n ih =>
    intro stack res id e h
    by_cases hst : id ∈ stack
    · have hstep : topoVisit g (n + 1) stack res id =
          Except.error (EngErr.cycleDetected id) := by
        simp [topoVisit, hst]
      rw [hstep] at h
      have h2 : EngErr.cycleDetected id = e := by injection h
      exact Or.inr ⟨id, h2.symm⟩
    · by_cases hres : id ∈ res
      · exact absurd h (by simp [topoVisit, hst, hres])
      · have hfold : ∀ (ds : List String) (acc : List String),
            List.foldlM (fun acc d => topoVisit g n (id :: stack) acc d) acc ds =
              Except.error e →
            e = EngErr.fuel ∨ ∃ c, e = EngErr.cycleDetected c := by
          intro ds
          induction ds with
          | nil =>
            intro acc hfd
            exact absurd (show Except.ok acc = Except.error e from hfd) (by simp)
          | cons d ds2 ihds =>
            intro acc hfd
            rw [List.foldlM_cons] at hfd
            cases hv : topoVisit g n (id :: stack) acc d with
            | error e2 =>
              rw [hv] at hfd
              have h2 : e2 = e := by
                have h3 : Except.error e2 = (Except.error e : Except EngErr (List String)) := hfd
                injection h3
              subst h2
              exact ih (id :: stack) acc d e2 hv
            | ok accm =>
              rw [hv] at hfd
              exact ihds accm hfd
        have hstep : topoVisit g (n + 1) stack res id =
            match (deps g id).foldlM (fun acc d => topoVisit g n (id :: stack) acc d) res with
            | Except.error e => Except.error e
            | Except.ok res1 => Except.ok (res1 ++ [id]) := by
          simp [topoVisit, hst, hres]
        rw [hstep] at h
        cases hE : (deps g id).foldlM (fun acc d => topoVisit g n (id :: stack) acc d) res with
        | error e2 =>
          rw [hE] at h
          have h2 : e2 = e := by injection h
          subst h2
          exact hfold (deps g id) res hE
        | ok res2 =>
          rw [hE] at h
          exact absurd h (by simp)

theorem topoVisitAll_error_shape (g : Graph) (fuel : Nat) :
    ∀ (order res : List String) (e : EngErr),
      topoVisitAll g fuel res order = Except.error e →
      e = EngErr.fuel ∨ ∃ c, e = EngErr.cycleDetected c := by
  intro order
  induction order with
  | nil =>
    intro res e h
    exact absurd (show Except.ok res = Except.error e from h) (by simp)
  | cons id rest ihall =>
    intro res e h
    by_cases hres : id ∈ res
    · rw [show topoVisitAll g fuel res (id :: rest) = topoVisitAll g fuel res rest by
        simp [topoVisitAll, hres]] at h
      exact ihall res e h
    · rw [show topoVisitAll g fuel res (id :: rest) =
          match topoVisit g fuel [] res id with
          | Except.error e => Except.error e
          | Except.ok res2 => topoVisitAll g fuel res2 rest by
        simp [topoVisitAll, hres]] at h
      cases hv : topoVisit g fuel [] res id with
      | error e2 =>
        rw [hv] at h
        have h2 : e2 = e := by injection h
        subst h2
        exact topoVisit_error_shape g fuel [] res id e2 hv
      | ok res2 =>
        rw [hv] at h
        exact ihall res2 e h

theorem topoVisitAll_cycle_sound (g : Graph) (fuel : Nat) :
    ∀ (order res : List String) (c : String),
      topoVisitAll g fuel res order = Except.error (EngErr.cycleDetected c) →
      OnCycle g c := by
  intro order
  induction order with
  | nil =>
    intro res c h
    exact absurd (show Except.ok res = Except.error (EngErr.cycleDetected c) from h) (by simp)
  | cons id rest ihall =>
    intro res c h
    by_cases hres : id ∈ res
    · rw [show topoVisitAll g fuel res (id :: rest) = topoVisitAll g fuel res rest by
        simp [topoVisitAll, hres]] at h
      exact ihall res c h
    · rw [show topoVisitAll g fuel res (id :: rest) =
          match topoVisit g fuel [] res id with
          | Except.error e => Except.error e
          | Except.ok res2 => topoVisitAll g fuel res2 rest by
        simp [topoVisitAll, hres]] at h
      cases hv : topoVisit g fuel [] res id with
      | error e2 =>
        rw [hv] at h
        have h2 : e2 = EngErr.cycleDetected c := by injection h
        subst h2
        exact topoVisit_cycle_sound g fuel [] res id c trivial hv
      | ok res2 =>
        rw [hv] at h
        exact ihall res2 c h

theorem topoSort_cycle_error (g : Graph) (hclosed : GraphClosed g)
    (c : String) (hc : OnCycle g c) :
    ∃ c1, topoSort g = Except.error (EngErr.cycleDetected c1) ∧ OnCycle g c1 := by
  cases hE : topoVisitAll g (g.length + 1) [] (g.map Prod.fst) with
  | ok res =>
    exfalso
    obtain ⟨_, hmem, hinv⟩ := topoVisitAll_ok g (g.length + 1) (g.map Prod.fst) [] res hE
    obtain ⟨_, hgood⟩ := hinv List.nodup_nil (fun x hx d _ => absurd hx (List.not_mem_nil x))
    have hck : c ∈ g.map Prod.fst := by
      by_cases hdep : deps g c = []
      · exact absurd hc (not_reaches_of_deps_nil hdep c)
      · exact mem_keys_of_deps_ne_nil hdep
    exact goodOrder_no_cycle g res hgood c hc (hmem c hck)
  | error e =>
    have hlen : g.length + 1 = (g.map Prod.fst).length + 1 := by simp
    rcases topoVisitAll_error_shape g (g.length + 1) (g.map Prod.fst) [] e hE with h1 | ⟨c1, h1⟩
    · subst h1
      rw [hlen] at hE
      exact absurd hE (topoVisitAll_ne_fuel g hclosed (g.map Prod.fst) [] (fun i hi => hi))
    · subst h1
      refine ⟨c1, ?_, topoVisitAll_cycle_sound g (g.length + 1) (g.map Prod.fst) [] c1 hE⟩
      unfold topoSort
      rw [hE]

theorem getA_mem_pair {α : Type} :
    ∀ (g : List (String × α)) (id : String) (r : α),
      getA g id = some r → (id, r) ∈ g := by
  intro g id r
  induction g with
  | nil => intro h; exact absurd h (by simp [getA])
  | cons kv rest ih =>
    intro h
    by_cases hk : kv.1 = id
    · rw [getA, if_pos hk] at h
      have h2 : kv.2 = r := by injection h
      have h3 : kv = (id, r) := Prod.ext hk h2
      rw [← h3]
      exact List.mem_cons_self kv rest
    · rw [getA, if_neg hk] at h
      exact List.mem_cons_of_mem kv (ih h)

theorem mem_values_foldl_setA (rs : List Resource) :
    ∀ (g0 : Graph) (id : String) (r : Resource),
      (id, r) ∈ rs.foldl (fun g r => setA g (resId r) r) g0 → (id, r) ∈ g0 ∨ r ∈ rs := by
  induction rs with
  | nil => intro g0 id r h; exact Or.inl h
  | cons r0 rest ih =>
    intro g0 id r h
    rw [List.foldl_cons] at h
    rcases ih (setA g0 (resId r0) r0) id r h with h2 | h2
    · rcases mem_setA g0 (resId r0) r0 (id, r) h2 with h3 | h3
      · exact Or.inl h3
      · have h4 : r = r0 := congrArg Prod.snd h3
        rw [h4]
        exact Or.inr (List.mem_cons_self r0 rest)
    · exact Or.inr (List.mem_cons_of_mem r0 h2)

theorem checkDeps_ok (g : Graph) (id : String) :
    ∀ (ds : List String), checkDeps g id ds = Except.ok () →
      ∀ d ∈ ds, (getA g d).isSome := by
  intro ds
  induction ds with
  | nil => intro _ d hd; exact absurd hd (List.not_mem_nil d)
  | cons d0 rest ih =>
    intro h d hd
    rw [checkDeps] at h
    cases hg : getA g d0 with
    | none => rw [hg] at h; exact absurd h (by simp)
    | some r =>
      rw [hg] at h
      rcases List.mem_cons.mp hd with h2 | h2
      · subst h2; rw [hg]; rfl
      · exact ih h d h2

theorem checkAllDeps_ok (g : Graph) :
    ∀ (rs : List Resource), checkAllDeps g rs = Except.ok () →
      ∀ r ∈ rs, ∀ d ∈ r.dependsOn, (getA g d).isSome := by
  intro rs
  induction rs with
  | nil => intro _ r hr; exact absurd hr (List.not_mem_nil r)
  | cons r0 rest ih =>
    intro h r hr d hd
    rw [checkAllDeps] at h
    cases hc : checkDeps g (resId r0) r0.dependsOn with
    | error e => rw [hc] at h; exact absurd h (by simp)
    | ok u =>
      cases u
      rw [hc] at h
      rcases List.mem_cons.mp hr with h2 | h2
      · subst h2
        exact checkDeps_ok g (resId r) r.dependsOn hc d hd
      · exact ih h r h2 d hd

theorem buildDependencyGraph_ok_parts (rs : List Resource) (g : Graph)
    (h : buildDependencyGraph rs = Except.ok g) :
    g = rs.foldl (fun g r => setA g (resId r) r) [] ∧ checkAllDeps g rs = Except.ok () := by
  unfold buildDependencyGraph at h
  cases hc : checkAllDeps (rs.foldl (fun g r => setA g (resId r) r) []) rs with
  | error e => rw [hc] at h; exact absurd h (by simp)
  | ok u =>
    cases u
    rw [hc] at h
    have h2 : rs.foldl (fun g r => setA g (resId r) r) [] = g := by injection h
    subst h2
    exact ⟨rfl, hc⟩

theorem buildDependencyGraph_closed (rs : List Resource) (g : Graph)
    (h : buildDependencyGraph rs = Except.ok g) : GraphClosed g := by
  obtain ⟨hg, hchk⟩ := buildDependencyGraph_ok_parts rs g h
  intro id d hd
  unfold deps at hd
  cases hga : getA g id with
  | none => rw [hga] at hd; exact absurd hd (List.not_mem_nil d)
  | some r =>
    rw [hga] at hd
    have hmem : (id, r) ∈ g := getA_mem_pair g id r hga
    have hrs : r ∈ rs := by
      rw [hg] at hmem
      rcases mem_values_foldl_setA rs [] id r hmem with h2 | h2
      · exact absurd h2 (List.not_mem_nil (id, r))
      · exact h2
    exact getA_isSome_mem_keys g d (checkAllDeps_ok g rs hchk r hrs d hd)

theorem validateNode_ok_preserves (os : String) (reg : List (String × Provider))
    (id : String) (r r1 : Resource) (h : validateNode os reg id r = Except.ok r1) :
    r1.dependsOn = r.dependsOn ∧ r1.rtype = r.rtype ∧ r1.name = r.name ∧
      r1.conditions = r.conditions := by
  unfold validateNode at h
  by_cases hs : isPlatformSupported os r = true
  · rw [if_neg (fun hcon => hcon hs)] at h
    cases hreg : registryGet reg r.rtype with
    | error e => simp only [hreg] at h; exact absurd h (by simp)
    | ok provider =>
      simp only [hreg] at h
      cases hval : provider.validate (defaultNameAttrs r) with
      | error msg => simp only [hval] at h; exact absurd h (by simp)
      | ok u =>
        cases u
        simp only [hval] at h
        have h2 : { r with attributes := defaultNameAttrs r } = r1 := by injection h
        rw [← h2]
        exact ⟨rfl, rfl, rfl, rfl⟩
  · rw [if_pos hs] at h
    have h2 : r = r1 := by injection h
    subst h2
    exact ⟨rfl, rfl, rfl, rfl⟩

theorem validateResources_preserves (os : String) (reg : List (String × Provider)) :
    ∀ (g g1 : Graph), validateResources os reg g = Except.ok g1 →
      (∀ id, deps g1 id = deps g id) ∧ g1.map Prod.fst = g.map Prod.fst := by
  intro g
  induction g with
  | nil =>
    intro g1 h
    have h2 : ([] : Graph) = g1 := by injection h
    subst h2
    exact ⟨fun id => rfl, rfl⟩
  | cons idr rest ih =>
    intro g1 h
    obtain ⟨id0, r0⟩ := idr
    rw [validateResources] at h
    cases hv : validateNode os reg id0 r0 with
    | error e => rw [hv] at h; exact absurd h (by simp)
    | ok r1 =>
      rw [hv] at h
      cases hrest : validateResources os reg rest with
      | error e => rw [hrest] at h; exact absurd h (by simp)
      | ok rest1 =>
        rw [hrest] at h
        have h2 : ((id0, r1) :: rest1 : Graph) = g1 := by injection h
        subst h2
        obtain ⟨ihdeps, ihkeys⟩ := ih rest1 hrest
        obtain ⟨hdep, _, _, _⟩ := validateNode_ok_preserves os reg id0 r0 r1 hv
        constructor
        · intro id
          by_cases hid : id0 = id
          · simp only [deps, getA, if_pos hid, hdep]
          · simp only [deps, getA, if_neg hid]
            exact ihdeps id
        · simp [ihkeys]

/-- C2 (amended): whenever the dependency graph builds successfully and
contains a cycle, `Engine.Apply` performs no provider Apply call at all,
and — provided the validation phase succeeds (every supported node has a
registered provider that accepts it) — the returned error is the cycle
diagnostic and names a resource lying on a cycle. (Without the validation
proviso the run still performs no Apply call, but the surfaced error can be
a provider/validation error naming an off-cycle resource — see the
counterexample.) -/
theorem engineApply_cycle_no_applies (os : String) (reg : List (String × Provider))
    (resources : List Resource) (g : Graph) (c : String)
    (hg : buildDependencyGraph resources = Except.ok g)
    (hc : OnCycle g c) :
    (engineApply os reg resources).2 = [] ∧
    (∀ g1, validateResources os reg g = Except.ok g1 →
      ∃ c1, (engineApply os reg resources).1 = Except.error (EngErr.cycleDetected c1) ∧
        OnCycle g c1) := by
  have hclosed := buildDependencyGraph_closed resources g hg
  cases hval : validateResources os reg g with
  | error e =>
    have heq : engineApply os reg resources = (Except.error e, []) := by
      unfold engineApply
      simp only [hg, hval]
    exact ⟨by rw [heq], fun g1 h1 => Except.noConfusion h1⟩
  | ok g1 =>
    obtain ⟨hdeps, hkeys⟩ := validateResources_preserves os reg g g1 hval
    have hclosed1 : GraphClosed g1 := by
      intro id d hd
      rw [hdeps id] at hd
      rw [hkeys]
      exact hclosed id d hd
    have hc1 : OnCycle g1 c := by
      refine Relation.TransGen.mono ?_ hc
      intro x y hxy
      show y ∈ deps g1 x
      rw [hdeps x]
      exact hxy
    obtain ⟨c1, hsort, hcyc1⟩ := topoSort_cycle_error g1 hclosed1 c hc1
    have heq : engineApply os reg resources = (Except.error (EngErr.cycleDetected c1), []) := by
      unfold engineApply
      simp only [hg, hval, hsort]
    refine ⟨by rw [heq], fun g2 h2 => ?_⟩
    have h3 : g1 = g2 := by injection h2
    subst h3
    refine ⟨c1, by rw [heq], ?_⟩
    refine Relation.TransGen.mono ?_ hcyc1
    intro x y hxy
    show y ∈ deps g x
    rw [← hdeps x]
    exact hxy

/-- C2 (counterexample): a resource list whose graph contains the 2-cycle
`file.a ↔ file.b` together with an off-cycle resource of an unregistered
type: `Engine.Apply` aborts during validation with an error naming
`nope.c`, which lies on no cycle — so the claim that the returned error
always names a resource on the cycle is false as stated. (No provider Apply
call is made, as the claim also asserts; that half survives in the
amendment.) -/
theorem engineApply_cycle_error_counterexample :
    buildDependencyGraph [cycA, cycB, offC] = Except.ok gCyc3 ∧
    OnCycle gCyc3 "file.a" ∧
    (engineApply "linux" [("file", trivialProvider)] [cycA, cycB, offC]).1 =
      Except.error (EngErr.noProvider "nope.c"
        "no provider registered for resource type nope") ∧
    (engineApply "linux" [("file", trivialProvider)] [cycA, cycB, offC]).2 = [] ∧
    ¬ OnCycle gCyc3 "nope.c" := by
  refine ⟨rfl, ?_, rfl, rfl, ?_⟩
  · have e1 : edgeOf gCyc3 "file.a" "file.b" :=
      show "file.b" ∈ deps gCyc3 "file.a" by decide
    have e2 : edgeOf gCyc3 "file.b" "file.a" :=
      show "file.a" ∈ deps gCyc3 "file.b" by decide
    exact Relation.TransGen.head e1 (Relation.TransGen.single e2)
  · exact not_reaches_of_deps_nil (by decide) "nope.c"

/-- Witness for C2 (amended) at the concrete 2-cycle with a registered
provider: no Apply call is made and the run errors with a cycle diagnostic
naming an on-cycle resource. -/
theorem engineApply_cycle_no_applies_witness :
    (engineApply "linux" [("file", trivialProvider)] [cycA, cycB]).2 = [] ∧
    ∃ c1, (engineApply "linux" [("file", trivialProvider)] [cycA, cycB]).1 =
        Except.error (EngErr.cycleDetected c1) ∧ OnCycle gCyc c1 := by
  have e1 : edgeOf gCyc "file.a" "file.b" :=
    show "file.b" ∈ deps gCyc "file.a" by decide
  have e2 : edgeOf gCyc "file.b" "file.a" :=
    show "file.a" ∈ deps gCyc "file.b" by decide
  have h := engineApply_cycle_no_applies "linux" [("file", trivialProvider)]
    [cycA, cycB] gCyc "file.a" rfl
    (Relation.TransGen.head e1 (Relation.TransGen.single e2))
  refine ⟨h.1, h.2 [("file.a", { cycA with attributes := [("name", Value.str "a")] }),
    ("file.b", { cycB with attributes := [("name", Value.str "b")] })] rfl⟩

/-! ## Theorems: include processing terminates and reads each file once (C8) -/

theorem length_filter_mono {l : List String} {p q : String → Bool}
    (hpq : ∀ x, p x = true → q x = true) :
    (l.filter p).length ≤ (l.filter q).length := by
  induction l with
  | nil => simp
  | cons a t ih =>
    simp only [List.filter_cons]
    by_cases hp : p a = true
    · rw [if_pos hp, if_pos (hpq a hp)]
      simpa using ih
    · rw [if_neg hp]
      by_cases hq : q a = true
      · rw [if_pos hq]
        exact Nat.le_succ_of_le ih
      · rw [if_neg hq]
        exact ih

theorem length_filter_lt {l : List String} {p q : String → Bool}
    (hpq : ∀ y, p y = true → q y = true) (x : String) (hx : x ∈ l)
    (hqx : q x = true) (hpx : ¬ p x = true) :
    (l.filter p).length < (l.filter q).length := by
  induction l with
  | nil => exact absurd hx (List.not_mem_nil x)
  | cons a t ih =>
    simp only [List.filter_cons]
    by_cases hax : a = x
    · subst hax
      rw [if_neg hpx, if_pos hqx]
      exact Nat.lt_succ_of_le (length_filter_mono hpq)
    · have hxt : x ∈ t := by
        rcases List.mem_cons.mp hx with h1 | h1
        · exact absurd h1.symm hax
        · exact h1
      by_cases hp : p a = true
      · rw [if_pos hp, if_pos (hpq a hp)]
        simpa using ih hxt
      · rw [if_neg hp]
        by_cases hq : q a = true
        · rw [if_pos hq]
          exact Nat.lt_succ_of_lt (ih hxt)
        · rw [if_neg hq]
          exact ih hxt

theorem unproc_mono (fs : List (String × String)) {h h2 : IncludeHandler}
    (hs : h.processedFiles ⊆ h2.processedFiles) :
    unproc fs h2 ≤ unproc fs h := by
  unfold unproc
  apply length_filter_mono
  intro x hx
  simp only [decide_eq_true_eq] at hx ⊢
  exact fun hmem => hx (hs hmem)

theorem unproc_insert_lt (fs : List (String × String)) (h : IncludeHandler)
    (cfg : String) (hmem : cfg ∈ fs.map Prod.fst) (hfresh : cfg ∉ h.processedFiles) :
    unproc fs { h with processedFiles := cfg :: h.processedFiles } < unproc fs h := by
  unfold unproc
  refine length_filter_lt ?_ cfg hmem (by simpa using hfresh) (by simp)
  intro y hy
  simp only [decide_eq_true_eq] at hy ⊢
  exact fun hmem2 => hy (List.mem_cons_of_mem _ hmem2)

theorem processMatchesF_inv (os : String) (glob : String → List String)
    (fs : List (String × String)) (n : Nat) (h : IncludeHandler)
    (ih : ∀ (h2 : IncludeHandler) (cfg2 : String), unproc fs h2 < n →
      PIBundle h2 (ProcessIncludes os glob fs n h2 cfg2)) :
    ∀ (ms : List String) (acc : ProcAcc), ProcInv fs n h acc →
      ProcInv fs n h (processMatchesF (ProcessIncludes os glob fs n) ms acc) := by
  intro ms
  induction ms with
  | nil =>
    intro acc hacc
    exact hacc
  | cons m rest ihm =>
    intro acc hacc
    obtain ⟨r1, h2, reads2⟩ := acc
    cases r1 with
    | error e =>
      exact ihm (Except.error e, h2, reads2) hacc
    | ok racc =>
      obtain ⟨hsub, hun, hnd, hfr, hne⟩ := hacc
      have hstep : processMatchesF (ProcessIncludes os glob fs n) (m :: rest)
          (Except.ok racc, h2, reads2) =
          processMatchesF (ProcessIncludes os glob fs n) rest
            (match ProcessIncludes os glob fs n h2 m with
             | (Except.error e, h3, reads3) => (Except.error e, h3, reads2 ++ reads3)
             | (Except.ok rs2, h3, reads3) =>
               (Except.ok (racc ++ rs2), h3, reads2 ++ reads3)) := rfl

      rw [hstep]
      have hb := ih h2 m hun
      rcases hcall : ProcessIncludes os glob fs n h2 m with ⟨r3, h3, reads3⟩
      rw [hcall] at hb
      obtain ⟨hb1, hb2, hb3, hb4⟩ := hb
      have hsub3 : h.processedFiles ⊆ h3.processedFiles :=
        fun x hx => hb1 (hsub hx)
      have hun3 : unproc fs h3 < n :=
        lt_of_le_of_lt (unproc_mono fs hb1) hun
      have hnd3 : (reads2 ++ reads3).Nodup := by
        rw [List.nodup_append]
        exact ⟨hnd, hb2, fun a ha hamem => (hb3 a hamem).1 ((hfr a ha).2)⟩
      have hfr3 : ∀ p ∈ reads2 ++ reads3,
          p ∉ h.processedFiles ∧ p ∈ h3.processedFiles := by
        intro p hp
        rcases List.mem_append.mp hp with h4 | h4
        · exact ⟨(hfr p h4).1, hb1 (hfr p h4).2⟩
        · exact ⟨fun hmem => (hb3 p h4).1 (hsub hmem), (hb3 p h4).2⟩
      cases r3 with
      | error e =>
        exact ihm (Except.error e, h3, reads2 ++ reads3)
          ⟨hsub3, hun3, hnd3, hfr3, hb4⟩
      | ok rs2 =>
        exact ihm (Except.ok (racc ++ rs2), h3, reads2 ++ reads3)
          ⟨hsub3, hun3, hnd3, hfr3, by simp⟩

theorem processResourceStep_inv (os : String) (glob : String → List String)
    (fs : List (String × String)) (n : Nat) (h : IncludeHandler) (cfg : String)
    (ih : ∀ (h2 : IncludeHandler) (cfg2 : String), unproc fs h2 < n →
      PIBundle h2 (ProcessIncludes os glob fs n h2 cfg2)) :
    ∀ (r : Resource) (acc : ProcAcc), ProcInv fs n h acc →
      ProcInv fs n h
        (processResourceStep os glob (ProcessIncludes os glob fs n) cfg acc r) := by
  intro r acc hacc
  obtain ⟨r1, h2, reads2⟩ := acc
  cases r1 with
  | error e => exact hacc
  | ok racc =>
    obtain ⟨hsub, hun, hnd, hfr, hne⟩ := hacc
    by_cases hinc : r.rtype = "include"
    · cases hpath : strAttr r "path" with
      | some pattern =>
        have hstep : processResourceStep os glob (ProcessIncludes os glob fs n) cfg
            (Except.ok racc, h2, reads2) r =
            processMatchesF (ProcessIncludes os glob fs n)
              (glob (resolveIncludePath cfg pattern)) (Except.ok racc, h2, reads2) := by
          simp [processResourceStep, hinc, hpath]
        rw [hstep]
        exact processMatchesF_inv os glob fs n h ih _ _ ⟨hsub, hun, hnd, hfr, hne⟩
      | none =>
        have hstep : processResourceStep os glob (ProcessIncludes os glob fs n) cfg
            (Except.ok racc, h2, reads2) r = (Except.ok racc, h2, reads2) := by
          simp [processResourceStep, hinc, hpath]
        rw [hstep]
        exact ⟨hsub, hun, hnd, hfr, hne⟩
    · by_cases hinp : r.rtype = "include_platform"
      · by_cases hpp : platformPatternFor os r = ""
        · have hstep : processResourceStep os glob (ProcessIncludes os glob fs n) cfg
              (Except.ok racc, h2, reads2) r = (Except.ok racc, h2, reads2) := by
            simp [processResourceStep, hinc, hinp, hpp]
          rw [hstep]
          exact ⟨hsub, hun, hnd, hfr, hne⟩
        · have hstep : processResourceStep os glob (ProcessIncludes os glob fs n) cfg
              (Except.ok racc, h2, reads2) r =
              processMatchesF (ProcessIncludes os glob fs n)
                (glob (resolveIncludePath cfg (platformPatternFor os r)))
                (Except.ok racc, h2, reads2) := by
            simp [processResourceStep, hinc, hinp, hpp]
          rw [hstep]
          exact processMatchesF_inv os glob fs n h ih _ _ ⟨hsub, hun, hnd, hfr, hne⟩
      · by_cases hvar : r.rtype = "variable"
        · cases hval : strAttr r "value" with
          | some value =>
            have hstep : processResourceStep os glob (ProcessIncludes os glob fs n) cfg
                (Except.ok racc, h2, reads2) r =
                (Except.ok racc,
                 { h2 with vars := setA h2.vars r.name (ReplaceVariables h2.vars value) },
                 reads2) := by
              simp [processResourceStep, hinc, hinp, hvar, hval]
            rw [hstep]
            exact ⟨hsub, hun, hnd, hfr, hne⟩
          | none =>
            have hstep : processResourceStep os glob (ProcessIncludes os glob fs n) cfg
                (Except.ok racc, h2, reads2) r = (Except.ok racc, h2, reads2) := by
              simp [processResourceStep, hinc, hinp, hvar, hval]
            rw [hstep]
            exact ⟨hsub, hun, hnd, hfr, hne⟩
        · by_cases htmp : r.rtype = "template"
          · cases hct : strAttr r "content" with
            | some content =>
              have hstep : processResourceStep os glob (ProcessIncludes os glob fs n) cfg
                  (Except.ok racc, h2, reads2) r =
                  (Except.ok racc,
                   { h2 with templates := setA h2.templates r.name content },
                   reads2) := by
                simp [processResourceStep, hinc, hinp, hvar, htmp, hct]
              rw [hstep]
              exact ⟨hsub, hun, hnd, hfr, hne⟩
            | none =>
              have hstep : processResourceStep os glob (ProcessIncludes os glob fs n) cfg
                  (Except.ok racc, h2, reads2) r = (Except.ok racc, h2, reads2) := by
                simp [processResourceStep, hinc, hinp, hvar, htmp, hct]
              rw [hstep]
              exact ⟨hsub, hun, hnd, hfr, hne⟩
          · have hstep : processResourceStep os glob (ProcessIncludes os glob fs n) cfg
                (Except.ok racc, h2, reads2) r =
                (Except.ok (racc ++ [substResource h2.vars r]), h2, reads2) := by
              simp [processResourceStep, hinc, hinp, hvar, htmp]
            rw [hstep]
            exact ⟨hsub, hun, hnd, hfr, by simp⟩

theorem foldl_processResourceStep_inv (os : String) (glob : String → List String)
    (fs : List (String × String)) (n : Nat) (h : IncludeHandler) (cfg : String)
    (ih : ∀ (h2 : IncludeHandler) (cfg2 : String), unproc fs h2 < n →
      PIBundle h2 (ProcessIncludes os glob fs n h2 cfg2)) :
    ∀ (rs : List Resource) (acc : ProcAcc), ProcInv fs n h acc →
      ProcInv fs n h
        (rs.foldl (processResourceStep os glob (ProcessIncludes os glob fs n) cfg) acc) := by
  intro rs
  induction rs with
  | nil =>
    intro acc hacc
    simpa using hacc
  | cons r rest ihr =>
    intro acc hacc
    rw [List.foldl_cons]
    exact ihr _ (processResourceStep_inv os glob fs n h cfg ih r acc hacc)

theorem ProcessIncludes_bundle (os : String) (glob : String → List String)
    (fs : List (String × String)) :
    ∀ (n : Nat) (h : IncludeHandler) (cfg : String), unproc fs h < n →
      PIBundle h (ProcessIncludes os glob fs n h cfg) := by
  intro n
  induction n with
  | zero =>
    intro h cfg hn
    exact absurd hn (Nat.not_lt_zero _)
  | succ n ihn =>
    intro h cfg hn
    by_cases hmem : cfg ∈ h.processedFiles
    · have hstep : ProcessIncludes os glob fs (n + 1) h cfg = (Except.ok [], h, []) := by
        simp [ProcessIncludes, absPath, hmem]
      rw [hstep]
      exact ⟨fun x hx => hx, List.nodup_nil,
        fun p hp => absurd hp (List.not_mem_nil p), by simp⟩
    · cases hget : getA fs cfg with
      | none =>
        have hstep : ProcessIncludes os glob fs (n + 1) h cfg =
            (Except.error (ProcErr.readErr cfg),
             { h with processedFiles := cfg :: h.processedFiles }, [cfg]) := by
          simp [ProcessIncludes, absPath, hmem, hget]
        rw [hstep]
        refine ⟨fun x hx => List.mem_cons_of_mem _ hx, by simp, ?_, by simp⟩
        intro p hp
        have hpc : p = cfg := by simpa using hp
        subst hpc
        exact ⟨hmem, List.mem_cons_self _ _⟩
      | some data =>
        cases hP : Parse data with
        | mk rs perrs =>
          by_cases hperr : perrs = []
          · have hkey : cfg ∈ fs.map Prod.fst :=
              getA_isSome_mem_keys fs cfg (by rw [hget]; rfl)
            have h1lt : unproc fs { h with processedFiles := cfg :: h.processedFiles } < n := by
              have hd := unproc_insert_lt fs h cfg hkey hmem
              omega
            have hstep : ProcessIncludes os glob fs (n + 1) h cfg =
                rs.foldl (processResourceStep os glob (ProcessIncludes os glob fs n) cfg)
                  (Except.ok [],
                   { h with processedFiles := cfg :: h.processedFiles }, [cfg]) := by
              simp [ProcessIncludes, absPath, hmem, hget, hP, hperr]
            rw [hstep]
            have hinit : ProcInv fs n h
                (Except.ok [],
                 { h with processedFiles := cfg :: h.processedFiles }, [cfg]) := by
              refine ⟨fun x hx => List.mem_cons_of_mem _ hx, h1lt, by simp, ?_, by simp⟩
              intro p hp
              have hpc : p = cfg := by simpa using hp
              subst hpc
              exact ⟨hmem, List.mem_cons_self _ _⟩
            have hfin := foldl_processResourceStep_inv os glob fs n h cfg ihn rs _ hinit
            exact ⟨hfin.1, hfin.2.2.1, hfin.2.2.2.1, hfin.2.2.2.2⟩
          · have hstep : ProcessIncludes os glob fs (n + 1) h cfg =
                (Except.error (ProcErr.parseErr cfg),
                 { h with processedFiles := cfg :: h.processedFiles }, [cfg]) := by
              simp [ProcessIncludes, absPath, hmem, hget, hP, hperr]
            rw [hstep]
            refine ⟨fun x hx => List.mem_cons_of_mem _ hx, by simp, ?_, by simp⟩
            intro p hp
            have hpc : p = cfg := by simpa using hp
            subst hpc
            exact ⟨hmem, List.mem_cons_self _ _⟩

/-- C8: with fuel exceeding the number of not-yet-processed file-system
paths (so in particular `|fs| + 1` from a fresh handler), `ProcessIncludes`
terminates normally on every include structure, cyclic inclusion included:
the fuel bound is never the cause of failure, the read log is
duplicate-free and contains no file that was already in the processed set
(each canonicalized absolute path is read, hence processed, at most once),
and calling it on an already-processed file is a silent no-op returning an
empty resource list, the unchanged handler, and no reads. -/
theorem ProcessIncludes_processed_once (os : String) (glob : String → List String)
    (fs : List (String × String)) (n : Nat) (h : IncludeHandler) (cfg : String)
    (hn : unproc fs h < n) :
    (ProcessIncludes os glob fs n h cfg).1 ≠ Except.error ProcErr.fuel ∧
    (ProcessIncludes os glob fs n h cfg).2.2.Nodup ∧
    (∀ p ∈ (ProcessIncludes os glob fs n h cfg).2.2, p ∉ h.processedFiles) ∧
    (cfg ∈ h.processedFiles →
      ProcessIncludes os glob fs n h cfg = (Except.ok [], h, [])) := by
  obtain ⟨hsub, hnd, hfr, hne⟩ := ProcessIncludes_bundle os glob fs n h cfg hn
  refine ⟨hne, hnd, fun p hp => (hfr p hp).1, ?_⟩
  intro hmem
  obtain ⟨m, rfl⟩ : ∃ m, n = m + 1 := ⟨n - 1, by omega⟩
  simp [ProcessIncludes, absPath, hmem]

/-- Witness for C8 at the two-file cyclic include fixture (`/a.cfg`
includes `/b.cfg`, which includes `/a.cfg` back): fuel 3 exceeds the two
unprocessed paths, and the run terminates having read each file exactly
once, in order `/a.cfg`, `/b.cfg`. -/
theorem ProcessIncludes_processed_once_witness :
    unproc c8Fs (NewIncludeHandler "/") < 3 ∧
    ((ProcessIncludes "linux" identGlob c8Fs 3 (NewIncludeHandler "/") "/a.cfg").1 ≠
        Except.error ProcErr.fuel ∧
      (ProcessIncludes "linux" identGlob c8Fs 3 (NewIncludeHandler "/") "/a.cfg").2.2.Nodup ∧
      (∀ p ∈ (ProcessIncludes "linux" identGlob c8Fs 3 (NewIncludeHandler "/") "/a.cfg").2.2,
        p ∉ (NewIncludeHandler "/").processedFiles) ∧
      ("/a.cfg" ∈ (NewIncludeHandler "/").processedFiles →
        ProcessIncludes "linux" identGlob c8Fs 3 (NewIncludeHandler "/") "/a.cfg" =
          (Except.ok [], NewIncludeHandler "/", []))) ∧
    (ProcessIncludes "linux" identGlob c8Fs 3 (NewIncludeHandler "/") "/a.cfg").2.2 =
      ["/a.cfg", "/b.cfg"] :=
  ⟨by decide, ProcessIncludes_processed_once "linux" identGlob c8Fs 3
    (NewIncludeHandler "/") "/a.cfg" (by decide), by rfl⟩

end Zero
